import Mathlib

/-!
# Verification development for `src/box/display.c` and `src/box/threads.cpp`

The companion program `threads.cpp` is embedded in the namespace `Threads`
further down.  `display.c` is one function, `main`.  It loads a BMP file into a heap buffer,
converts the 24-bit pixel data into a buffer of 32-bit words, opens and maps the
framebuffer device, and then draws the words into the mapping.

Conventions of the embedding.

* Memory is flat and byte-addressed: a function from addresses to byte values.
  `main` computes what the statements of the program do on that memory and
  records every call, load and store as an event.  The C program has this
  behaviour only while the calls it does not check succeed and every access lies
  inside the object it is made through; `State.defined` decides that from the
  recorded events, and `verdict` is the outcome of a run with that taken into
  account: running, returned, or undefined.
* Offsets into the mapping are 64-bit patterns: `framebuffer + offset` wraps
  modulo `2 ^ 64`, so the mapping is indexed modulo `2 ^ 64`.
* `unsigned int` arithmetic is reduced modulo `2 ^ 32` where the source computes
  in 32 bits.  Pointers are 64-bit addresses (the source casts a pointer to
  `unsigned long long`); adding a signed `int` to a pointer sign-extends the
  `int` and wraps modulo `2 ^ 64`, while the small positive increments
  `pixel += 3` and `pixel + 3` are taken exactly (objects lie inside the address
  space).
* The results of the external calls are inputs: those the program checks
  (`open`, `ioctl`, `mmap`) and those it does not (`fstat`, `malloc`, `read`).
-/

namespace Display

/-- Byte-addressed memory: the byte stored at every address. -/
abbrev Memory := Nat → Nat

/-- An `unsigned char` load, `p[0]`. -/
def load8 (mem : Memory) (p : Nat) : Nat := mem p % 256

/-- The load `((int*)p)[0]` on a little-endian machine, as a 32-bit pattern. -/
def load32 (mem : Memory) (p : Nat) : Nat :=
  load8 mem p + 2 ^ 8 * load8 mem (p + 1) + 2 ^ 16 * load8 mem (p + 2) + 2 ^ 24 * load8 mem (p + 3)

/-- The 64-bit two's-complement pattern of a 32-bit pattern read as `int`. -/
def signExtend (v : Nat) : Nat := if v < 2 ^ 31 then v else v + (2 ^ 64 - 2 ^ 32)

/-- How many bytes the address `a` lies above the address `p` in the 64-bit
address space, where pointer arithmetic wraps: `(a - p) mod 2 ^ 64`. -/
def distance (p a : Nat) : Nat := (a + (2 ^ 64 - p % 2 ^ 64)) % 2 ^ 64

/-- The store `memcpy(p, &v, 4)` of an `unsigned int` on a little-endian machine:
byte `j` of `v` goes to the address `p + j`, taken modulo `2 ^ 64`. -/
def store32 (mem : Memory) (p v : Nat) : Memory :=
  fun a => if distance p a < 4 then v / 2 ^ (8 * distance p a) % 256 else mem a

/-- The call `memset(p, 0, n)`: the `n` bytes at `p`, `p + 1`, ..., taken modulo
`2 ^ 64`. -/
def memset0 (mem : Memory) (p n : Nat) : Memory :=
  fun a => if distance p a < n then 0 else mem a

/-- The assignment `buffer[i] = v` on a buffer of words. -/
def setAt (buffer : Nat → Nat) (i v : Nat) : Nat → Nat :=
  fun j => if j = i then v else buffer j

/-- The loop `for (i = 0; i < n; i++) body`: the state after its `n` iterations. -/
def forLoop {σ : Type} (body : Nat → σ → σ) (s : σ) : Nat → σ
  | 0 => s
  | n + 1 => body n (forLoop body s n)

/-- The messages `main` prints before `return 1`. -/
inductive Diagnostic where
  | usage
  | couldNotOpenFile
  | mustBe24
  | fbOpenFailed
  | fbInfoFailed
  | displayInfoFailed
  | tooLarge
  | mapFailed
  | updateFailed
  deriving DecidableEq, Repr

/-- What a run of `main` does, in program order. -/
inductive Event where
  | openImage
  | readImage (size : Nat)
  | load32 (addr : Nat)
  | load8 (addr : Nat)
  | allocPixels (bytes : Nat)
  | storePixel (index value : Nat)
  | openFramebuffer
  | getFixInfo
  | getVarInfo
  | mmap (length offset : Nat)
  | memset (offset length : Nat)
  | memcpy (offset value : Nat)
  | putVarInfo (activate : Nat)
  | print (d : Diagnostic)
  deriving DecidableEq, Repr

/-- The events that touch the display device. -/
def Event.isDevice : Event → Bool
  | .openFramebuffer => true
  | .getFixInfo => true
  | .getVarInfo => true
  | .mmap _ _ => true
  | .memset _ _ => true
  | .memcpy _ _ => true
  | .putVarInfo _ => true
  | _ => false

/-- The fields of `struct fb_fix_screeninfo` the program uses. -/
structure fb_fix_screeninfo where
  smem_start : Nat
  smem_len : Nat
  line_length : Nat

/-- The fields of `struct fb_var_screeninfo` that influence the program. -/
structure fb_var_screeninfo where
  xres : Nat
  yres : Nat
  activate : Nat

/-- The inputs of a run: the command line, the file, the memory around the image
buffer, the outcomes of the device calls, and the two flag constants of
`linux/fb.h`, which are not part of the repository.  The program does not test
the results of `fstat` (line 29), of the two `malloc` calls (lines 32 and 56) and
of `read` (line 35); whether each succeeded is an input as well: `stat_ok`,
`image_allocated`, `pixels_allocated`, and `read_ok` for a `read` that filled the
buffer with the `st_size` bytes of the file. -/
structure World where
  argument_count : Nat
  image : Option (List Nat)
  stat_ok : Bool
  image_allocated : Bool
  read_ok : Bool
  image_data : Nat
  heap : Memory
  pixels_allocated : Bool
  pixels_heap : Nat → Nat
  fb_open : Bool
  framebuffer_info : Option fb_fix_screeninfo
  display_info : Option fb_var_screeninfo
  mapped : Option Memory
  put_ok : Bool
  FB_ACTIVATE_NOW : Nat
  FB_ACTIVATE_FORCE : Nat

/-- Memory after a successful `read(fd, image_data, file_info.st_size)`: the file
occupies `image_data .. image_data + size - 1`; every other address keeps what
it held. -/
def memory (w : World) (file : List Nat) : Memory :=
  fun a => if w.image_data ≤ a ∧ a < w.image_data + file.length
    then file.getD (a - w.image_data) 0 else w.heap a

/-- Line 41: `unsigned int width = ((int*)(image_data + 18))[0]`. -/
def width (mem : Memory) (image_data : Nat) : Nat := load32 mem (image_data + 18)

/-- Line 42: `unsigned int height = ((int*)(image_data + 22))[0]`. -/
def height (mem : Memory) (image_data : Nat) : Nat := load32 mem (image_data + 22)

/-- Lines 46 and 49: `((int*)(image_data + 28))[0]`. -/
def bits_per_pixel (mem : Memory) (image_data : Nat) : Nat := load32 mem (image_data + 28)

/-- Line 55: `pixel = image_data + ((int*)(image_data + 10))[0]`, a pointer plus a
signed `int`. -/
def pixel (mem : Memory) (image_data : Nat) : Nat :=
  (image_data + signExtend (load32 mem (image_data + 10))) % 2 ^ 64

/-- Line 61: the word built from `pixel[0]`, `pixel[1]`, `pixel[2]`. -/
def pack (p0 p1 p2 : Nat) : Nat :=
  p1 <<< 0 ||| p2 <<< 8 ||| p0 <<< 16 ||| 0xff000000

/-- Line 65: `(unsigned long long)(pixel + 3) & ~3`. -/
def alignNext4 (p : Nat) : Nat := (p + 3) % 2 ^ 64 &&& (2 ^ 64 - 4)

/-- The variables the conversion loops change. -/
structure Conv where
  pixel : Nat
  pixels : Nat → Nat
  trace : List Event

/-- Lines 61 and 62, the body of the loop over `x`.  The three loads and the store
are recorded with their address and index; whether they lie inside the file
buffer and inside the allocation of line 56 is what `Event.valid` decides. -/
def convertPixel (mem : Memory) (width y x : Nat) (s : Conv) : Conv :=
  let index := (x + y * width % 2 ^ 32) % 2 ^ 32
  let value := pack (load8 mem s.pixel) (load8 mem (s.pixel + 1)) (load8 mem (s.pixel + 2))
  { pixel := s.pixel + 3
    pixels := setAt s.pixels index value
    trace := s.trace ++ [.load8 (s.pixel + 1), .load8 (s.pixel + 2), .load8 s.pixel,
      .storePixel index value] }

/-- Lines 59 to 65, the body of the loop over `y`. -/
def convertRow (mem : Memory) (width y : Nat) (s : Conv) : Conv :=
  let r := forLoop (convertPixel mem width y) s width
  { r with pixel := alignNext4 r.pixel }

/-- Lines 58 to 66: the state after the first `rows` rows; the whole loop is
`convert mem width s height`. -/
def convert (mem : Memory) (width : Nat) (s : Conv) (rows : Nat) : Conv :=
  forLoop (convertRow mem width) s rows

/-- The variables the copy loops change. -/
structure Blit where
  framebuffer : Memory
  trace : List Event

/-- Line 129: `framebuffer_offset + x * sizeof(int) + y * framebuffer_info.line_length`,
as the 64-bit pattern of the `off_t` result: the last product is a product of
two `unsigned int` and wraps modulo `2 ^ 32`, the sum wraps modulo `2 ^ 64`, and a
pattern of `2 ^ 63` or more is a negative offset.  Adding it to `framebuffer`
wraps again, so as a mapping offset it is meant modulo `2 ^ 64`. -/
def framebuffer_pixel_offset (info : fb_fix_screeninfo) (x y : Nat) : Nat :=
  (info.smem_start + x * 4 + y * info.line_length % 2 ^ 32) % 2 ^ 64

/-- Lines 126 to 132, the body of the loop over `x`. -/
def blitPixel (info : fb_fix_screeninfo) (pixels : Nat → Nat) (width height y x : Nat)
    (s : Blit) : Blit :=
  let pixel := pixels (((height - 1 - y) * width % 2 ^ 32 + x) % 2 ^ 32) % 2 ^ 32
  let offset := framebuffer_pixel_offset info x y
  { framebuffer := store32 s.framebuffer offset pixel
    trace := s.trace ++ [.memcpy offset pixel] }

/-- Lines 123 to 134: the state after the first `rows` rows of the copy. -/
def blit (info : fb_fix_screeninfo) (pixels : Nat → Nat) (width height : Nat) (s : Blit)
    (rows : Nat) : Blit :=
  forLoop (fun y s => forLoop (blitPixel info pixels width height y) s width) s rows

/-- Where control is. -/
inductive Ctl where
  | loop
  | spin
  | returned (status : Nat)
  deriving DecidableEq, Repr

/-- The program state between the steps of `main`. -/
structure State where
  ctl : Ctl
  trace : List Event
  width : Nat
  height : Nat
  pixels : Nat → Nat
  info : fb_fix_screeninfo
  framebuffer : Memory
  activate : Nat
  activated : Nat

/-- Record events. -/
def State.emit (s : State) (es : List Event) : State :=
  { s with trace := s.trace ++ es }

/-- The pattern `printf(message); return 1;`. -/
def State.fail (s : State) (d : Diagnostic) : State :=
  { s with ctl := .returned 1, trace := s.trace ++ [.print d] }

/-- The state `main` is entered in. -/
def State.entry (w : World) : State :=
  { ctl := .loop, trace := [], width := 0, height := 0, pixels := w.pixels_heap,
    info := ⟨0, 0, 0⟩, framebuffer := fun _ => 0, activate := 0, activated := 0 }

/-- Lines 69 to 117: open the device, query it, check the size, map it. -/
def device (w : World) (s : State) : State :=
  let s := s.emit [.openFramebuffer]
  if w.fb_open = false then s.fail .fbOpenFailed else
  let s := s.emit [.getFixInfo]
  match w.framebuffer_info with
  | none => s.fail .fbInfoFailed
  | some info =>
    let s := s.emit [.getVarInfo]
    match w.display_info with
    | none => s.fail .displayInfoFailed
    | some display_info =>
      if s.width > display_info.xres ∨ s.height > display_info.yres then s.fail .tooLarge else
      let s := s.emit [.mmap info.smem_len 0]
      match w.mapped with
      | none => s.fail .mapFailed
      | some m =>
        { s with info := info, framebuffer := m, activate := display_info.activate,
                 activated := 0 }

/-- Lines 27 to 46: load the file and read the header fields; the word at byte 28
is loaded once for the `printf` of line 46 and once for the test of line 49. -/
def header (w : World) (file : List Nat) : State :=
  let d := w.image_data
  let s := (State.entry w).emit [.openImage, .readImage file.length, .load32 (d + 18),
    .load32 (d + 22), .load32 (d + 28), .load32 (d + 28)]
  { s with width := width (memory w file) d, height := height (memory w file) d }

/-- Lines 54 to 66: allocate the buffer of `width * height` words and fill it. -/
def extract (w : World) (file : List Nat) (s : State) : State :=
  let d := w.image_data
  let s := s.emit [.load32 (d + 10), .allocPixels (s.width * s.height % 2 ^ 32 * 4)]
  let c := convert (memory w file) s.width ⟨pixel (memory w file) d, s.pixels, s.trace⟩ s.height
  { s with pixels := c.pixels, trace := c.trace }

/-- Lines 9 to 117: everything before `while (1)`. -/
def start (w : World) : State :=
  if w.argument_count < 2 then (State.entry w).fail .usage else
  match w.image with
  | none => ((State.entry w).emit [.openImage]).fail .couldNotOpenFile
  | some file =>
    if bits_per_pixel (memory w file) w.image_data ≠ 24 then (header w file).fail .mustBe24 else
    device w (extract w file (header w file))

/-- Lines 120 to 134: clear the `smem_len` bytes at `framebuffer + framebuffer_offset`,
a pointer sum that wraps modulo `2 ^ 64`, then copy every pixel. -/
def frame (s : State) : Blit :=
  blit s.info s.pixels s.width s.height
    { framebuffer := memset0 s.framebuffer s.info.smem_start s.info.smem_len
      trace := s.trace ++ [.memset s.info.smem_start s.info.smem_len] }
    s.height

/-- Lines 119 to 148: one pass of the body of `while (1)`, up to the inner
`while (1) {}`, which has no exit and changes nothing. -/
def step (w : World) (s : State) : State :=
  match s.ctl with
  | .returned _ => s
  | .spin => s
  | .loop =>
    let b := frame s
    let activate := s.activate ||| (w.FB_ACTIVATE_NOW ||| w.FB_ACTIVATE_FORCE)
    let s := { s with framebuffer := b.framebuffer, trace := b.trace, activate := activate }
    if s.activated = 0 then
      let s := s.emit [.putVarInfo activate]
      if w.put_ok = false then s.fail .updateFailed
      else { s with activated := 1, ctl := .spin }
    else { s with activated := 1, ctl := .spin }

/-- The state of `main` after `n` steps of the display loop. -/
def main (w : World) (n : Nat) : State := (step w)^[n] (start w)

/-! ## Accesses and the objects they are made through -/

/-- Whether the source defines what an event records, for a file buffer of `size`
bytes at `image_data` (line 32), a word buffer of `entries` entries (line 56) and
a mapping of `mapped` bytes (line 101).

* Lines 29 to 35 give the buffer the contents of the file only if `fstat`, the
  `malloc` of line 32 and `read` succeeded.
* A load through `image_data` or `pixel` (lines 41 to 55, 61) lies inside the
  file buffer.
* The store `pixels[i]` of line 61 needs the buffer of line 56 and `i` below its
  number of entries.  (The loads `pixels[...]` of line 126 use the indices line 61
  stored to and are not recorded.)
* The clear of line 120 and the copies of line 132 lie inside the mapping; their
  offsets are 64-bit patterns. -/
def Event.valid (w : World) (size entries mapped : Nat) : Event → Bool
  | .readImage _ => w.stat_ok && w.image_allocated && w.read_ok
  | .load32 a => decide (w.image_data ≤ a ∧ a + 4 ≤ w.image_data + size)
  | .load8 a => decide (w.image_data ≤ a ∧ a < w.image_data + size)
  | .storePixel i _ => w.pixels_allocated && decide (i < entries)
  | .memset o l => decide (o % 2 ^ 64 + l ≤ mapped)
  | .memcpy o _ => decide (o % 2 ^ 64 + 4 ≤ mapped)
  | _ => true

/-- Whether the run recorded in `s` has stayed defined: every event of its trace is
valid for the file buffer of `st_size` bytes, the word buffer of
`width * height mod 2 ^ 32` entries that line 56 allocates, and the mapping of
`smem_len` bytes. -/
def State.defined (w : World) (s : State) : Bool :=
  s.trace.all (Event.valid w (w.image.getD []).length (s.width * s.height % 2 ^ 32)
    s.info.smem_len)

/-- What can be said of a run after some steps: it is in the display loop, it has
returned a status, or it has left the behaviour the source defines (an unchecked
call failed or an access fell outside its object) and nothing is guaranteed from
there on. -/
inductive Verdict where
  | running
  | returned (status : Nat)
  | undefined
  deriving DecidableEq, Repr

/-- The verdict on the run of `main` after `n` steps of the display loop. -/
def verdict (w : World) (n : Nat) : Verdict :=
  if (main w n).defined w = true then
    match (main w n).ctl with
    | .returned status => .returned status
    | _ => .running
  else .undefined

/-! ## Derived notions used in the statements -/

/-- The word the converter builds from the three bytes at `p`. -/
def packAt (mem : Memory) (p : Nat) : Nat :=
  pack (load8 mem p) (load8 mem (p + 1)) (load8 mem (p + 2))

/-- The word the copy loop stores for destination pixel `(x, y)`. -/
def blitWord (pixels : Nat → Nat) (width height y x : Nat) : Nat :=
  pixels (((height - 1 - y) * width % 2 ^ 32 + x) % 2 ^ 32) % 2 ^ 32

/-- The events the conversion loops record: byte loads and buffer stores. -/
def Event.isPixelAccess : Event → Bool
  | .load8 _ => true
  | .storePixel _ _ => true
  | _ => false

/-- The events the copy loops record. -/
def Event.isCopy : Event → Bool
  | .memcpy _ _ => true
  | _ => false

/-- The message of a `printf` event. -/
def Event.diagnostic : Event → Option Diagnostic
  | .print d => some d
  | _ => none

/-- The messages a run has printed, in order. -/
def diagnostics (trace : List Event) : List Diagnostic := trace.filterMap Event.diagnostic

/-! ## The specification's vocabulary -/

/-- The spec's little-endian unsigned 32-bit field stored at bytes `i .. i + 3` of
a file. -/
def fileU32 (file : List Nat) (i : Nat) : Nat :=
  file.getD i 0 % 256 + 2 ^ 8 * (file.getD (i + 1) 0 % 256) + 2 ^ 16 * (file.getD (i + 2) 0 % 256)
    + 2 ^ 24 * (file.getD (i + 3) 0 % 256)

/-- The spec's padded row length, `ceil(w*3/4)*4` bytes. -/
def paddedRowBytes (w : Nat) : Nat := (w * 3 + 3) / 4 * 4

/-- The spec's list of fatal checks, in the order it gives them: the first one
that fails, if any. -/
def firstFailure (w : World) : Option Diagnostic :=
  if w.argument_count < 2 then some .usage else
  match w.image with
  | none => some .couldNotOpenFile
  | some file =>
    if bits_per_pixel (memory w file) w.image_data ≠ 24 then some .mustBe24 else
    if w.fb_open = false then some .fbOpenFailed else
    match w.framebuffer_info with
    | none => some .fbInfoFailed
    | some _ =>
      match w.display_info with
      | none => some .displayInfoFailed
      | some display_info =>
        if width (memory w file) w.image_data > display_info.xres
            ∨ height (memory w file) w.image_data > display_info.yres then some .tooLarge else
        match w.mapped with
        | none => some .mapFailed
        | some _ => if w.put_ok = false then some .updateFailed else none

/-! ## Concrete inputs -/

/-- A 54-byte BMP header: pixel data at `offset`, `w` by `h` pixels, 24 bits per
pixel, `BI_RGB`. -/
def bmpHeader (offset w h size : Nat) : List Nat :=
  [66, 77, size, 0, 0, 0, 0, 0, 0, 0, offset, 0, 0, 0,
   40, 0, 0, 0, w, 0, 0, 0, h, 0, 0, 0, 1, 0, 24, 0, 0, 0, 0, 0, 0, 0, 0, 0,
   0, 0, 0, 0, 0, 0, 0, 0, 0, 0, 0, 0, 0, 0, 0, 0]

/-- The 2x2 all-red BMP of the end-to-end scenario: pixel data at byte 54, rows of
6 bytes padded to 8. -/
def red2x2 : List Nat :=
  bmpHeader 54 2 2 70 ++ [0, 0, 255, 0, 0, 255, 0, 0] ++ [0, 0, 255, 0, 0, 255, 0, 0]

/-- A device of 4x4 pixels with 16 bytes per row whose calls all succeed, as do
`fstat`, `read` and both `malloc` calls; the mapping initially holds the byte 7
everywhere. -/
def deviceWorld (file : List Nat) (image_data : Nat) : World :=
  { argument_count := 2, image := some file, stat_ok := true, image_allocated := true,
    read_ok := true, image_data := image_data, heap := fun _ => 0,
    pixels_allocated := true, pixels_heap := fun _ => 0, fb_open := true,
    framebuffer_info := some ⟨0, 64, 16⟩, display_info := some ⟨4, 4, 0⟩,
    mapped := some (fun _ => 7), put_ok := true, FB_ACTIVATE_NOW := 0, FB_ACTIVATE_FORCE := 128 }

/-- The red BMP loaded at the 4-byte aligned address 4096. -/
def redWorld : World := deviceWorld red2x2 4096

/-- A 32-byte file whose offset field at bytes 10..13 is `0x80000000`, with a
1x1 image and 24 bits per pixel. -/
def farOffsetFile : List Nat :=
  [66, 77, 32, 0, 0, 0, 0, 0, 0, 0, 0, 0, 0, 128,
   40, 0, 0, 0, 1, 0, 0, 0, 1, 0, 0, 0, 1, 0, 24, 0, 0, 0]

/-- The file `farOffsetFile` loaded at address `2 ^ 32`. -/
def farOffsetWorld : World := deviceWorld farOffsetFile (2 ^ 32)

/-- A 1x2 BMP with pixel data at byte 56: stored row 0 is the pixel `(1, 2, 3)`,
stored row 1 is the pixel `(4, 5, 6)`, each row padded to 4 bytes. -/
def twoRows : List Nat :=
  bmpHeader 56 1 2 64 ++ [0, 0] ++ [1, 2, 3, 0] ++ [4, 5, 6, 0]

/-- The file `twoRows` loaded at the 4-byte aligned address 4096. -/
def twoRowsWorld : World := deviceWorld twoRows 4096

/-- A 2-byte file. -/
def shortFile : List Nat := [66, 77]

/-- The 2-byte file loaded at address 4096, where the memory after the buffer
happens to hold the byte 24 at `image_data + 28` and zero elsewhere. -/
def shortWorld : World :=
  { deviceWorld shortFile 4096 with heap := fun a => if a = 4096 + 28 then 24 else 0 }

/-- A 54-byte file that is a BMP header announcing 16 bits per pixel. -/
def depth16File : List Nat := (bmpHeader 54 1 1 58).set 28 16

/-- The 16-bit file loaded at address 4096. -/
def depth16World : World := deviceWorld depth16File 4096

/-- The red BMP on a device whose mode commit fails. -/
def commitFailsWorld : World := { redWorld with put_ok := false }

/-! ## The events of the loops, listed -/

/-- The events of converting pixel `x` of row `y`, for a row that starts at
address `p`: lines 61 and 62. -/
def pixelEvents (mem : Memory) (width y p x : Nat) : List Event :=
  [.load8 (p + 3 * x + 1), .load8 (p + 3 * x + 2), .load8 (p + 3 * x),
    .storePixel ((x + y * width % 2 ^ 32) % 2 ^ 32) (packAt mem (p + 3 * x))]

/-- The events of the first `rows` rows of a conversion that starts in `s`; row
`y` starts where the read pointer is after `y` rows. -/
def convertEvents (mem : Memory) (width : Nat) (s : Conv) (rows : Nat) : List Event :=
  (List.range rows).flatMap fun y =>
    (List.range width).flatMap (pixelEvents mem width y (convert mem width s y).pixel)

/-- The events of the first `rows` rows of a copy: one `memcpy` per pixel. -/
def copyEvents (info : fb_fix_screeninfo) (pixels : Nat → Nat) (width height rows : Nat) :
    List Event :=
  (List.range rows).flatMap fun y =>
    (List.range width).map fun x =>
      Event.memcpy (framebuffer_pixel_offset info x y) (blitWord pixels width height y x)

/-- The buffer index of a store event. -/
def Event.storeIndex : Event → Option Nat
  | .storePixel i _ => some i
  | _ => none

/-- The mode-commit events. -/
def Event.isCommit : Event → Bool
  | .putVarInfo _ => true
  | _ => false

/-- The clear events. -/
def Event.isClear : Event → Bool
  | .memset _ _ => true
  | _ => false

/-- The variables of the conversion loops when line 58 is reached: the read
pointer of line 55, the fresh buffer, and the trace so far. -/
def conversionStart (w : World) (file : List Nat) : Conv :=
  { pixel := pixel (memory w file) w.image_data
    pixels := w.pixels_heap
    trace := (header w file).trace ++ [.load32 (w.image_data + 10),
      .allocPixels (width (memory w file) w.image_data
        * height (memory w file) w.image_data % 2 ^ 32 * 4)] }

/-- The buffer index `x + y * width` of line 61, in 32-bit unsigned arithmetic. -/
def pixelIndex (width x y : Nat) : Nat := (x + y * width % 2 ^ 32) % 2 ^ 32

/-- A 54-byte header announcing a 65536 x 65536 image with 24 bits per pixel. -/
def hugeFile : List Nat :=
  [66, 77, 54, 0, 0, 0, 0, 0, 0, 0, 54, 0, 0, 0,
   40, 0, 0, 0, 0, 0, 1, 0, 0, 0, 1, 0, 1, 0, 24, 0, 0, 0, 0, 0, 0, 0, 0, 0,
   0, 0, 0, 0, 0, 0, 0, 0, 0, 0, 0, 0, 0, 0, 0, 0]

/-- The file `hugeFile` loaded at address 4096. -/
def hugeWorld : World := deviceWorld hugeFile 4096

/-- The red BMP on a device that reports the base offset 8 for its memory. -/
def offsetWorld : World := { redWorld with framebuffer_info := some ⟨8, 64, 16⟩ }

/-- The red BMP on a device that reports the base offset `2 ^ 64 - 8`, which is
`-8` as an `off_t`. -/
def wrapWorld : World := { redWorld with framebuffer_info := some ⟨2 ^ 64 - 8, 64, 16⟩ }

/-- The red BMP in a run whose `malloc` of line 56 returns no buffer. -/
def allocFailsWorld : World := { redWorld with pixels_allocated := false }

/-- The spec's little-endian unsigned 16-bit field stored at bytes `i`, `i + 1` of a
file. -/
def fileU16 (file : List Nat) (i : Nat) : Nat :=
  file.getD i 0 % 256 + 2 ^ 8 * (file.getD (i + 1) 0 % 256)

/-- A 1x2 BMP with pixel data at the standard offset 54: two rows of 3 bytes, each
padded to 4, 62 bytes in all. -/
def narrowFile : List Nat := bmpHeader 54 1 2 62 ++ [1, 2, 3, 0] ++ [4, 5, 6, 0]

/-- The file `narrowFile` loaded at the 4-byte aligned address 4096. -/
def narrowWorld : World := deviceWorld narrowFile 4096

/-- A BMP header of bit depth 24 whose compression method is 1 (`BI_RLE8`). -/
def rleFile : List Nat := (bmpHeader 54 1 1 58).set 30 1

/-- The file `rleFile` loaded at address 4096. -/
def rleWorld : World := deviceWorld rleFile 4096

end Display

/-! # `src/box/threads.cpp`

The worker thread is started and joined before the buffer is read, and nothing
else touches the buffer meanwhile, so `compute_fibonaccis` runs as a sequential
function on the vector.  `int` addition that overflows is undefined in C++ and
has no result here.  `std::vector` is library code: its growth policy on
reallocation is a parameter. -/

namespace Threads

/-- The result of running code that may hit undefined behaviour or, in a model
with fuel, run out of steps. -/
inductive Outcome (α : Type) where
  | value (a : α)
  | undefined
  | timeout
  deriving DecidableEq, Repr

/-- The sum of two `int`; it exists when it fits 32 bits. -/
def addInt (a b : Int) : Option Int :=
  if -(2 ^ 31) ≤ a + b ∧ a + b < 2 ^ 31 then some (a + b) else none

/-- Lines 5 to 10: `fibonacci`. -/
def fibonacci (n : Int) : Option Int :=
  if _h : n < 2 then some n
  else
    match fibonacci (n - 1), fibonacci (n - 2) with
    | some a, some b => addInt a b
    | _, _ => none
termination_by n.toNat
decreasing_by
  all_goals simp_wf
  all_goals omega

/-- A `std::vector<int>`: its elements, its capacity, and how often its storage
has been reallocated. -/
structure Vector where
  data : List Int
  capacity : Nat
  reallocations : Nat
  deriving DecidableEq, Repr

/-- The library call `push_back`: the element is appended; if the vector is full
its storage is reallocated first, with the capacity the growth policy gives. -/
def push_back (grow : Nat → Nat) (v : Vector) (x : Int) : Vector :=
  if v.data.length < v.capacity then { v with data := v.data ++ [x] }
  else
    { data := v.data ++ [x]
      capacity := max (v.data.length + 1) (grow v.capacity)
      reallocations := v.reallocations + 1 }

/-- Lines 16 to 19: the loop of `compute_fibonaccis` from the counter value `i`,
for at most `fuel` evaluations of its condition; `sizes` records the size of the
vector after every `push_back`. -/
def compute_fibonaccis (grow : Nat → Nat) :
    Nat → Nat → Vector → List Nat → Outcome (Vector × List Nat)
  | 0, _, _, _ => .timeout
  | fuel + 1, i, v, sizes =>
    if i < v.capacity then
      match fibonacci i with
      | some x =>
        compute_fibonaccis grow fuel (i + 1) (push_back grow v x)
          (sizes ++ [(push_back grow v x).data.length])
      | none => .undefined
    else .value (v, sizes)

/-- Lines 26 and 27: an empty vector after `reserve(c)`. -/
def reserved (c : Nat) : Vector := { data := [], capacity := c, reallocations := 0 }

/-- The spec's Fibonacci numbers: `F(0) = 0`, `F(1) = 1`, `F(n) = F(n-1) + F(n-2)`. -/
def F : Nat → Nat
  | 0 => 0
  | 1 => 1
  | n + 2 => F (n + 1) + F n

end Threads

namespace Display

/-! ## Machine arithmetic -/

theorem mask_testBit (j : Nat) : Nat.testBit (2 ^ 64 - 4) j = (decide (2 ≤ j) && decide (j < 64)) := by
  by_cases h : j < 64
  · interval_cases j <;> decide
  · have h1 : (2 ^ 64 - 4) < 2 ^ j :=
      lt_of_lt_of_le (by norm_num) (Nat.pow_le_pow_right (by norm_num) (not_lt.mp h))
    rw [Nat.testBit_lt_two_pow h1]
    simp [h]

theorem alignNext4_eq (p : Nat) (h : p + 3 < 2 ^ 64) : alignNext4 p = (p + 3) / 4 * 4 := by
  unfold alignNext4
  rw [Nat.mod_eq_of_lt h]
  apply Nat.eq_of_testBit_eq
  intro j
  rw [Nat.testBit_and, mask_testBit]
  have e : (p + 3) / 4 * 4 = ((p + 3) >>> 2) <<< 2 := by
    rw [Nat.shiftLeft_eq, Nat.shiftRight_eq_div_pow]
  rw [e, Nat.testBit_shiftLeft, Nat.testBit_shiftRight]
  by_cases h2 : 2 ≤ j
  · have : 2 + (j - 2) = j := by omega
    simp only [this, h2, decide_True, Bool.true_and, ge_iff_le]
    by_cases h3 : j < 64
    · simp [h3]
    · have h1 : p + 3 < 2 ^ j :=
        lt_of_lt_of_le h (Nat.pow_le_pow_right (by norm_num) (not_lt.mp h3))
      simp [Nat.testBit_lt_two_pow h1]
  · simp [h2]

theorem pack_eq (p0 p1 p2 : Nat) (h0 : p0 < 256) (h1 : p1 < 256) (h2 : p2 < 256) :
    pack p0 p1 p2 = 0xff000000 + p0 * 2 ^ 16 + p2 * 2 ^ 8 + p1 := by
  unfold pack
  simp only [Nat.shiftLeft_eq, Nat.pow_zero, Nat.mul_one]
  have a : p1 ||| p2 * 2 ^ 8 = 2 ^ 8 * p2 + p1 := by
    rw [Nat.or_comm, Nat.mul_comm]
    exact (Nat.mul_add_lt_is_or (by omega) p2).symm
  have b : (2 ^ 8 * p2 + p1) ||| p0 * 2 ^ 16 = 2 ^ 16 * p0 + (2 ^ 8 * p2 + p1) := by
    rw [Nat.or_comm, Nat.mul_comm]
    exact (Nat.mul_add_lt_is_or (by omega) p0).symm
  have hlt : 2 ^ 16 * p0 + (2 ^ 8 * p2 + p1) < 2 ^ 24 := by omega
  have c : (2 ^ 16 * p0 + (2 ^ 8 * p2 + p1)) ||| 0xff000000
      = 2 ^ 24 * 255 + (2 ^ 16 * p0 + (2 ^ 8 * p2 + p1)) := by
    rw [Nat.or_comm, (Nat.mul_add_lt_is_or hlt 255)]
  rw [a, b, c]
  omega

/-! ## The conversion loops -/

theorem load8_lt (mem : Memory) (p : Nat) : load8 mem p < 256 :=
  Nat.mod_lt _ (by norm_num)

theorem load32_lt (mem : Memory) (p : Nat) : load32 mem p < 2 ^ 32 := by
  have h0 := load8_lt mem p
  have h1 := load8_lt mem (p + 1)
  have h2 := load8_lt mem (p + 2)
  have h3 := load8_lt mem (p + 3)
  unfold load32
  omega

theorem forLoop_succ {σ : Type} (body : Nat → σ → σ) (s : σ) (n : Nat) :
    forLoop body s (n + 1) = body n (forLoop body s n) := rfl

theorem convertPixels_pixel (mem : Memory) (width y : Nat) (s : Conv) (n : Nat) :
    (forLoop (convertPixel mem width y) s n).pixel = s.pixel + 3 * n := by
  induction n with
  | zero => rfl
  | succ n ih => rw [forLoop_succ]; simp only [convertPixel, ih]; omega

theorem convertPixels_pixels (mem : Memory) (width y : Nat) (s : Conv) (n : Nat)
    (hn : y * width + n ≤ 2 ^ 32) (i : Nat) :
    (forLoop (convertPixel mem width y) s n).pixels i =
      if y * width ≤ i ∧ i < y * width + n then packAt mem (s.pixel + 3 * (i - y * width))
      else s.pixels i := by
  induction n with
  | zero =>
    have h3 : ¬ (y * width ≤ i ∧ i < y * width + 0) := by omega
    rw [if_neg h3]
    rfl
  | succ n ih =>
    rw [forLoop_succ]
    have ih := ih (by omega)
    simp only [convertPixel, setAt, convertPixels_pixel]
    have e : (n + y * width % 2 ^ 32) % 2 ^ 32 = y * width + n := by
      rw [Nat.mod_eq_of_lt (by omega : y * width < 2 ^ 32)]
      rw [Nat.mod_eq_of_lt (by omega)]
      omega
    rw [e, ih]
    by_cases h : i = y * width + n
    · subst h
      have : y * width + n - y * width = n := by omega
      simp [packAt, this]
    · by_cases h2 : y * width ≤ i ∧ i < y * width + n
      · have h3 : y * width ≤ i ∧ i < y * width + (n + 1) := by omega
        simp [h, h2, h3]
      · have h3 : ¬ (y * width ≤ i ∧ i < y * width + (n + 1)) := by omega
        simp [h, h2, h3]

theorem convertRow_pixel (mem : Memory) (width y : Nat) (s : Conv) :
    (convertRow mem width y s).pixel = alignNext4 (s.pixel + 3 * width) := by
  simp [convertRow, convertPixels_pixel]

theorem convertRow_pixels (mem : Memory) (width y : Nat) (s : Conv) :
    (convertRow mem width y s).pixels = (forLoop (convertPixel mem width y) s width).pixels := rfl

theorem convert_succ (mem : Memory) (width : Nat) (s : Conv) (k : Nat) :
    convert mem width s (k + 1) = convertRow mem width k (convert mem width s k) := rfl

/-- The row pointer after `k` rows when the pixel data start at a multiple of 4. -/
theorem convert_pixel_aligned (mem : Memory) (width : Nat) (s : Conv) (k : Nat)
    (h4 : s.pixel % 4 = 0) (hb : s.pixel + k * paddedRowBytes width + 3 < 2 ^ 64) :
    (convert mem width s k).pixel = s.pixel + k * paddedRowBytes width := by
  induction k with
  | zero => simp [convert, forLoop]
  | succ k ih =>
    have e : (k + 1) * paddedRowBytes width = k * paddedRowBytes width + paddedRowBytes width :=
      Nat.succ_mul _ _
    have hS : paddedRowBytes width = (width * 3 + 3) / 4 * 4 := rfl
    have hk : (k * paddedRowBytes width) % 4 = 0 := by
      rw [hS, ← Nat.mul_assoc]; exact Nat.mul_mod_left _ _
    rw [convert_succ, convertRow_pixel, ih (by omega), alignNext4_eq _ (by omega)]
    omega

/-- The buffer after `k` rows when the pixel data start at a multiple of 4:
buffer row `y` holds stored row `y`. -/
theorem convert_pixels_aligned (mem : Memory) (width : Nat) (s : Conv) (k : Nat)
    (h4 : s.pixel % 4 = 0) (hb : s.pixel + k * paddedRowBytes width + 3 < 2 ^ 64)
    (hk : k * width ≤ 2 ^ 32) :
    (∀ y x, y < k → x < width → (convert mem width s k).pixels (y * width + x)
        = packAt mem (s.pixel + y * paddedRowBytes width + 3 * x)) ∧
    (∀ i, k * width ≤ i → (convert mem width s k).pixels i = s.pixels i) := by
  induction k with
  | zero => simp [convert, forLoop]
  | succ k ih =>
    have e : (k + 1) * paddedRowBytes width = k * paddedRowBytes width + paddedRowBytes width :=
      Nat.succ_mul _ _
    have e2 : (k + 1) * width = k * width + width := Nat.succ_mul _ _
    obtain ⟨ih1, ih2⟩ := ih (by omega) (by omega)
    have hp := convert_pixel_aligned mem width s k h4 (by omega)
    constructor
    · intro y x hy hx
      rw [convert_succ, convertRow_pixels, convertPixels_pixels _ _ _ _ _ (by omega), hp]
      by_cases hyk : y = k
      · subst hyk
        have : y * width + x - y * width = x := by omega
        simp [hx, this]
      · have hlt : y + 1 ≤ k := by omega
        have := Nat.mul_le_mul_right width hlt
        rw [Nat.succ_mul] at this
        have h3 : ¬ (k * width ≤ y * width + x ∧ y * width + x < k * width + width) := by omega
        rw [if_neg h3]
        exact ih1 y x (by omega) hx
    · intro i hi
      rw [convert_succ, convertRow_pixels, convertPixels_pixels _ _ _ _ _ (by omega)]
      have h3 : ¬ (k * width ≤ i ∧ i < k * width + width) := by omega
      rw [if_neg h3]
      exact ih2 i (by omega)

/-! ## Traces and the copy loops -/

theorem convertPixels_trace (mem : Memory) (width y : Nat) (s : Conv) (n : Nat) :
    ∃ es, (forLoop (convertPixel mem width y) s n).trace = s.trace ++ es ∧
      ∀ e ∈ es, e.isPixelAccess = true := by
  induction n with
  | zero => exact ⟨[], by simp [forLoop], by simp⟩
  | succ n ih =>
    obtain ⟨es, h1, h2⟩ := ih
    refine ⟨es ++ [.load8 ((forLoop (convertPixel mem width y) s n).pixel + 1),
      .load8 ((forLoop (convertPixel mem width y) s n).pixel + 2),
      .load8 (forLoop (convertPixel mem width y) s n).pixel,
      .storePixel ((n + y * width % 2 ^ 32) % 2 ^ 32)
        (packAt mem (forLoop (convertPixel mem width y) s n).pixel)], ?_, ?_⟩
    · rw [forLoop_succ]
      simp only [convertPixel, h1, packAt, List.append_assoc]
    · intro e he
      rw [List.mem_append] at he
      rcases he with he | he
      · exact h2 e he
      · simp only [List.mem_cons, List.mem_singleton, List.not_mem_nil, or_false] at he
        rcases he with h | h | h | h <;> subst h <;> rfl

theorem convert_trace (mem : Memory) (width : Nat) (s : Conv) (k : Nat) :
    ∃ es, (convert mem width s k).trace = s.trace ++ es ∧
      ∀ e ∈ es, e.isPixelAccess = true := by
  induction k with
  | zero => exact ⟨[], by simp [convert, forLoop], by simp⟩
  | succ k ih =>
    obtain ⟨es, h1, h2⟩ := ih
    obtain ⟨fs, g1, g2⟩ := convertPixels_trace mem width k (convert mem width s k) width
    refine ⟨es ++ fs, ?_, ?_⟩
    · rw [convert_succ]
      simp only [convertRow, g1, h1, List.append_assoc]
    · intro e he
      rw [List.mem_append] at he
      rcases he with he | he
      · exact h2 e he
      · exact g2 e he

theorem blitPixels_trace (info : fb_fix_screeninfo) (pixels : Nat → Nat) (width height y : Nat)
    (s : Blit) (n : Nat) :
    ∃ es, (forLoop (blitPixel info pixels width height y) s n).trace = s.trace ++ es ∧
      ∀ e ∈ es, e.isCopy = true := by
  induction n with
  | zero => exact ⟨[], by simp [forLoop], by simp⟩
  | succ n ih =>
    obtain ⟨es, h1, h2⟩ := ih
    refine ⟨es ++ [.memcpy (framebuffer_pixel_offset info n y)
      (pixels (((height - 1 - y) * width % 2 ^ 32 + n) % 2 ^ 32) % 2 ^ 32)], ?_, ?_⟩
    · rw [forLoop_succ]
      simp only [blitPixel, h1, List.append_assoc]
    · intro e he
      rw [List.mem_append] at he
      rcases he with he | he
      · exact h2 e he
      · simp only [List.mem_singleton] at he
        subst he
        rfl

theorem blit_succ (info : fb_fix_screeninfo) (pixels : Nat → Nat) (width height : Nat) (s : Blit)
    (k : Nat) :
    blit info pixels width height s (k + 1) =
      forLoop (blitPixel info pixels width height k) (blit info pixels width height s k) width :=
  rfl

theorem blit_trace (info : fb_fix_screeninfo) (pixels : Nat → Nat) (width height : Nat) (s : Blit)
    (k : Nat) :
    ∃ es, (blit info pixels width height s k).trace = s.trace ++ es ∧
      ∀ e ∈ es, e.isCopy = true := by
  induction k with
  | zero => exact ⟨[], by simp [blit, forLoop], by simp⟩
  | succ k ih =>
    obtain ⟨es, h1, h2⟩ := ih
    obtain ⟨fs, g1, g2⟩ :=
      blitPixels_trace info pixels width height k (blit info pixels width height s k) width
    refine ⟨es ++ fs, ?_, ?_⟩
    · rw [blit_succ, g1, h1, List.append_assoc]
    · intro e he
      rw [List.mem_append] at he
      rcases he with he | he
      · exact h2 e he
      · exact g2 e he

theorem distance_lt (p a : Nat) : distance p a < 2 ^ 64 :=
  Nat.mod_lt _ (by norm_num)

theorem blitPixels_framebuffer (info : fb_fix_screeninfo) (pixels : Nat → Nat)
    (width height y : Nat) (s : Blit) (n a : Nat) (hn : 4 * n ≤ 2 ^ 64) :
    (forLoop (blitPixel info pixels width height y) s n).framebuffer a =
      if distance (framebuffer_pixel_offset info 0 y) a < 4 * n
      then blitWord pixels width height y (distance (framebuffer_pixel_offset info 0 y) a / 4)
        / 2 ^ (8 * (distance (framebuffer_pixel_offset info 0 y) a % 4)) % 256
      else s.framebuffer a := by
  induction n with
  | zero =>
    rw [if_neg (by omega)]
    rfl
  | succ n ih =>
    rw [forLoop_succ]
    simp only [blitPixel, store32, ih (by omega)]
    have key : distance (framebuffer_pixel_offset info n y) a
        = (distance (framebuffer_pixel_offset info 0 y) a + (2 ^ 64 - 4 * n)) % 2 ^ 64 := by
      simp only [distance, framebuffer_pixel_offset]
      omega
    have hD := distance_lt (framebuffer_pixel_offset info 0 y) a
    rw [key]
    generalize distance (framebuffer_pixel_offset info 0 y) a = D at hD ⊢
    by_cases h : 4 * n ≤ D ∧ D < 4 * n + 4
    · have h1 : (D + (2 ^ 64 - 4 * n)) % 2 ^ 64 < 4 := by omega
      have h3 : D < 4 * (n + 1) := by omega
      have e1 : D / 4 = n := by omega
      have e2 : (D + (2 ^ 64 - 4 * n)) % 2 ^ 64 = D % 4 := by omega
      rw [if_pos h1, if_pos h3, e1, e2]
      rfl
    · have h1 : ¬ (D + (2 ^ 64 - 4 * n)) % 2 ^ 64 < 4 := by omega
      rw [if_neg h1]
      by_cases h2 : D < 4 * n
      · rw [if_pos h2, if_pos (by omega)]
      · rw [if_neg h2, if_neg (by omega)]

/-- The copy loop after `k` rows, when device rows do not overlap and the row
offsets fit 32 bits: each destination word holds its source word. -/
theorem blit_framebuffer (info : fb_fix_screeninfo) (pixels : Nat → Nat) (width height : Nat)
    (s : Blit) (k : Nat) (hw : width < 2 ^ 32) (hL : 4 * width ≤ info.line_length)
    (h32 : ∀ y, y < k → y * info.line_length < 2 ^ 32) :
    ∀ y x i, y < k → x < width → i < 4 →
      (blit info pixels width height s k).framebuffer
          (info.smem_start + x * 4 + y * info.line_length + i)
        = blitWord pixels width height y x / 2 ^ (8 * i) % 256 := by
  induction k with
  | zero =>
    exact fun y x i hy => absurd hy (Nat.not_lt_zero _)
  | succ k ih =>
    have ih1 := ih (fun y hy => h32 y (by omega))
    have hk := h32 k (by omega)
    intro y x i hy hx hi
    rw [blit_succ, blitPixels_framebuffer _ _ _ _ _ _ _ _ (by omega)]
    by_cases hyk : y = k
    · subst hyk
      have e : distance (framebuffer_pixel_offset info 0 y)
          (info.smem_start + x * 4 + y * info.line_length + i) = 4 * x + i := by
        simp only [distance, framebuffer_pixel_offset, Nat.mod_eq_of_lt hk]
        omega
      rw [e, if_pos (by omega)]
      have e1 : (4 * x + i) / 4 = x := by omega
      have e2 : (4 * x + i) % 4 = i := by omega
      rw [e1, e2]
    · have hlt : y + 1 ≤ k := by omega
      have hm := Nat.mul_le_mul_right info.line_length hlt
      rw [Nat.succ_mul] at hm
      have e : ¬ distance (framebuffer_pixel_offset info 0 k)
          (info.smem_start + x * 4 + y * info.line_length + i) < 4 * width := by
        simp only [distance, framebuffer_pixel_offset, Nat.mod_eq_of_lt hk]
        omega
      rw [if_neg e]
      exact ih1 y x i (by omega) hx hi


/-! ## The straight-line part of `main` -/

theorem diagnostics_append (a b : List Event) :
    diagnostics (a ++ b) = diagnostics a ++ diagnostics b := by
  simp [diagnostics, List.filterMap_append]

theorem diagnostics_pixelAccess (es : List Event) (h : ∀ e ∈ es, e.isPixelAccess = true) :
    diagnostics es = [] := by
  induction es with
  | nil => rfl
  | cons e es ih =>
    have he := h e (List.mem_cons_self _ _)
    have ht := ih (fun e hmem => h e (List.mem_cons_of_mem _ hmem))
    cases e <;> simp_all [diagnostics, Event.diagnostic, Event.isPixelAccess]

theorem diagnostics_copy (es : List Event) (h : ∀ e ∈ es, e.isCopy = true) :
    diagnostics es = [] := by
  induction es with
  | nil => rfl
  | cons e es ih =>
    have he := h e (List.mem_cons_self _ _)
    have ht := ih (fun e hmem => h e (List.mem_cons_of_mem _ hmem))
    cases e <;> simp_all [diagnostics, Event.diagnostic, Event.isCopy]

theorem header_trace (w : World) (file : List Nat) :
    (header w file).trace = [.openImage, .readImage file.length, .load32 (w.image_data + 18),
      .load32 (w.image_data + 22), .load32 (w.image_data + 28), .load32 (w.image_data + 28)] := by
  simp [header, State.emit, State.entry]

theorem header_width (w : World) (file : List Nat) :
    (header w file).width = width (memory w file) w.image_data := rfl

theorem header_height (w : World) (file : List Nat) :
    (header w file).height = height (memory w file) w.image_data := rfl

theorem extract_width (w : World) (file : List Nat) (s : State) :
    (extract w file s).width = s.width := rfl

theorem extract_height (w : World) (file : List Nat) (s : State) :
    (extract w file s).height = s.height := rfl

theorem extract_ctl (w : World) (file : List Nat) (s : State) :
    (extract w file s).ctl = s.ctl := rfl

theorem extract_pixels (w : World) (file : List Nat) (s : State) :
    (extract w file s).pixels =
      (convert (memory w file) s.width
        ⟨pixel (memory w file) w.image_data, s.pixels,
          s.trace ++ [.load32 (w.image_data + 10), .allocPixels (s.width * s.height % 2 ^ 32 * 4)]⟩
        s.height).pixels := rfl

theorem extract_trace (w : World) (file : List Nat) (s : State) :
    ∃ es, (extract w file s).trace =
        s.trace ++ [.load32 (w.image_data + 10), .allocPixels (s.width * s.height % 2 ^ 32 * 4)]
          ++ es ∧ ∀ e ∈ es, e.isPixelAccess = true := by
  obtain ⟨es, h1, h2⟩ := convert_trace (memory w file) s.width
    ⟨pixel (memory w file) w.image_data, s.pixels,
      s.trace ++ [.load32 (w.image_data + 10), .allocPixels (s.width * s.height % 2 ^ 32 * 4)]⟩
    s.height
  exact ⟨es, h1, h2⟩

theorem emit_emit (s : State) (a b : List Event) : (s.emit a).emit b = s.emit (a ++ b) := by
  simp [State.emit, List.append_assoc]

/-- The six ways lines 69 to 117 can go. -/
theorem device_cases (w : World) (s : State) :
    (w.fb_open = false ∧ device w s = (s.emit [.openFramebuffer]).fail .fbOpenFailed) ∨
    (w.fb_open = true ∧ w.framebuffer_info = none ∧
      device w s = (s.emit [.openFramebuffer, .getFixInfo]).fail .fbInfoFailed) ∨
    (∃ info, w.fb_open = true ∧ w.framebuffer_info = some info ∧ w.display_info = none ∧
      device w s = (s.emit [.openFramebuffer, .getFixInfo, .getVarInfo]).fail .displayInfoFailed) ∨
    (∃ info var, w.fb_open = true ∧ w.framebuffer_info = some info ∧ w.display_info = some var ∧
      (s.width > var.xres ∨ s.height > var.yres) ∧
      device w s = (s.emit [.openFramebuffer, .getFixInfo, .getVarInfo]).fail .tooLarge) ∨
    (∃ info var, w.fb_open = true ∧ w.framebuffer_info = some info ∧ w.display_info = some var ∧
      ¬ (s.width > var.xres ∨ s.height > var.yres) ∧ w.mapped = none ∧
      device w s = (s.emit [.openFramebuffer, .getFixInfo, .getVarInfo,
        .mmap info.smem_len 0]).fail .mapFailed) ∨
    (∃ info var m, w.fb_open = true ∧ w.framebuffer_info = some info ∧
      w.display_info = some var ∧ ¬ (s.width > var.xres ∨ s.height > var.yres) ∧
      w.mapped = some m ∧
      device w s = { s.emit [.openFramebuffer, .getFixInfo, .getVarInfo, .mmap info.smem_len 0]
        with info := info, framebuffer := m, activate := var.activate, activated := 0 }) := by
  cases hfb : w.fb_open with
  | false => left; exact ⟨rfl, by simp [device, hfb]⟩
  | true =>
    right
    cases hfix : w.framebuffer_info with
    | none => left; exact ⟨rfl, rfl, by simp [device, hfb, hfix, emit_emit]⟩
    | some info =>
      right
      cases hvar : w.display_info with
      | none => left; exact ⟨info, rfl, rfl, rfl, by simp [device, hfb, hfix, hvar, emit_emit]⟩
      | some var =>
        right
        by_cases hsize : s.width > var.xres ∨ s.height > var.yres
        · left
          refine ⟨info, var, rfl, rfl, rfl, hsize, ?_⟩
          have hs : ((s.emit [.openFramebuffer, .getFixInfo, .getVarInfo]).width > var.xres ∨
              (s.emit [.openFramebuffer, .getFixInfo, .getVarInfo]).height > var.yres) := hsize
          simp only [device, hfb, hfix, hvar, emit_emit]
          simp [hs]
        · right
          have hs : ¬ ((s.emit [.openFramebuffer, .getFixInfo, .getVarInfo]).width > var.xres ∨
              (s.emit [.openFramebuffer, .getFixInfo, .getVarInfo]).height > var.yres) := hsize
          cases hmap : w.mapped with
          | none =>
            left
            refine ⟨info, var, rfl, rfl, rfl, hsize, rfl, ?_⟩
            simp only [device, hfb, hfix, hvar, hmap, emit_emit]
            simp [hs]
          | some m =>
            right
            refine ⟨info, var, m, rfl, rfl, rfl, hsize, rfl, ?_⟩
            simp only [device, hfb, hfix, hvar, hmap, emit_emit]
            simp [hs]

theorem device_width (w : World) (s : State) : (device w s).width = s.width := by
  rcases device_cases w s with ⟨_, h⟩ | ⟨_, _, h⟩ | ⟨_, _, _, _, h⟩ | ⟨_, _, _, _, _, _, h⟩ |
    ⟨_, _, _, _, _, _, _, h⟩ | ⟨_, _, _, _, _, _, _, _, h⟩ <;> rw [h] <;> rfl

theorem device_height (w : World) (s : State) : (device w s).height = s.height := by
  rcases device_cases w s with ⟨_, h⟩ | ⟨_, _, h⟩ | ⟨_, _, _, _, h⟩ | ⟨_, _, _, _, _, _, h⟩ |
    ⟨_, _, _, _, _, _, _, h⟩ | ⟨_, _, _, _, _, _, _, _, h⟩ <;> rw [h] <;> rfl

theorem device_pixels (w : World) (s : State) : (device w s).pixels = s.pixels := by
  rcases device_cases w s with ⟨_, h⟩ | ⟨_, _, h⟩ | ⟨_, _, _, _, h⟩ | ⟨_, _, _, _, _, _, h⟩ |
    ⟨_, _, _, _, _, _, _, h⟩ | ⟨_, _, _, _, _, _, _, _, h⟩ <;> rw [h] <;> rfl

theorem device_activated (w : World) (s : State) (h0 : s.activated = 0) :
    (device w s).activated = 0 := by
  rcases device_cases w s with ⟨_, h⟩ | ⟨_, _, h⟩ | ⟨_, _, _, _, h⟩ | ⟨_, _, _, _, _, _, h⟩ |
    ⟨_, _, _, _, _, _, _, h⟩ | ⟨_, _, _, _, _, _, _, _, h⟩ <;> rw [h] <;> try exact h0

theorem start_usage (w : World) (h : w.argument_count < 2) :
    start w = (State.entry w).fail .usage := by
  simp [start, h]

theorem start_noImage (w : World) (h : 2 ≤ w.argument_count) (himg : w.image = none) :
    start w = ((State.entry w).emit [.openImage]).fail .couldNotOpenFile := by
  have h2 : ¬ w.argument_count < 2 := by omega
  simp [start, h2, himg]

theorem start_not24 (w : World) (file : List Nat) (h : 2 ≤ w.argument_count)
    (himg : w.image = some file) (hbpp : bits_per_pixel (memory w file) w.image_data ≠ 24) :
    start w = (header w file).fail .mustBe24 := by
  have h2 : ¬ w.argument_count < 2 := by omega
  simp [start, h2, himg, hbpp]

theorem start_24 (w : World) (file : List Nat) (h : 2 ≤ w.argument_count)
    (himg : w.image = some file) (hbpp : bits_per_pixel (memory w file) w.image_data = 24) :
    start w = device w (extract w file (header w file)) := by
  have h2 : ¬ w.argument_count < 2 := by omega
  simp [start, h2, himg, hbpp]

/-! ## The display loop -/

theorem step_of_returned (w : World) (s : State) (c : Nat) (h : s.ctl = .returned c) :
    step w s = s := by
  simp [step, h]

theorem step_of_spin (w : World) (s : State) (h : s.ctl = .spin) : step w s = s := by
  simp [step, h]

theorem step_framebuffer (w : World) (s : State) (h : s.ctl = .loop) :
    (step w s).framebuffer = (frame s).framebuffer := by
  simp only [step, h]
  split
  · split <;> rfl
  · rfl

theorem step_put_failed (w : World) (s : State) (h : s.ctl = .loop) (ha : s.activated = 0)
    (hp : w.put_ok = false) :
    (step w s).ctl = .returned 1 ∧
    (step w s).trace = (frame s).trace ++
      [.putVarInfo (s.activate ||| (w.FB_ACTIVATE_NOW ||| w.FB_ACTIVATE_FORCE)),
       .print .updateFailed] := by
  simp [step, h, ha, hp, State.fail, State.emit]

theorem step_put_ok (w : World) (s : State) (h : s.ctl = .loop) (ha : s.activated = 0)
    (hp : w.put_ok = true) :
    (step w s).ctl = .spin ∧
    (step w s).trace = (frame s).trace ++
      [.putVarInfo (s.activate ||| (w.FB_ACTIVATE_NOW ||| w.FB_ACTIVATE_FORCE))] := by
  simp [step, h, ha, hp, State.emit]

theorem step_ctl_ne_loop (w : World) (s : State) (h : s.ctl = .loop) :
    (step w s).ctl ≠ .loop := by
  simp only [step, h]
  split
  · split <;> simp [State.fail, State.emit]
  · simp

theorem step_fixed (w : World) (s : State) (h : s.ctl ≠ .loop) : step w s = s := by
  cases hc : s.ctl with
  | loop => exact absurd hc h
  | spin => exact step_of_spin w s hc
  | returned c => exact step_of_returned w s c hc

theorem main_zero (w : World) : main w 0 = start w := rfl

theorem main_succ (w : World) (n : Nat) : main w (n + 1) = step w (main w n) := by
  simp [main, Function.iterate_succ_apply']

theorem main_of_not_loop (w : World) (h : (start w).ctl ≠ .loop) (n : Nat) :
    main w n = start w := by
  induction n with
  | zero => rfl
  | succ n ih => rw [main_succ, ih, step_fixed w _ h]

theorem main_of_loop (w : World) (h : (start w).ctl = .loop) (n : Nat) :
    main w (n + 1) = step w (start w) := by
  induction n with
  | zero => rw [main_succ, main_zero]
  | succ n ih => rw [main_succ, ih, step_fixed w _ (step_ctl_ne_loop w _ h)]


/-! ## What a run prints -/

theorem diagnostics_nil : diagnostics [] = [] := rfl

theorem diagnostics_print (d : Diagnostic) (es : List Event) :
    diagnostics (.print d :: es) = d :: diagnostics es := rfl

theorem diagnostics_silent (e : Event) (es : List Event) (h : e.diagnostic = none) :
    diagnostics (e :: es) = diagnostics es := by
  simp [diagnostics, List.filterMap_cons, h]

theorem diagnostics_header (w : World) (file : List Nat) :
    diagnostics (header w file).trace = [] := by
  rw [header_trace]
  rfl

theorem diagnostics_extract (w : World) (file : List Nat) (s : State) :
    diagnostics (extract w file s).trace = diagnostics s.trace := by
  obtain ⟨es, h1, h2⟩ := extract_trace w file s
  rw [h1, diagnostics_append, diagnostics_append, diagnostics_pixelAccess es h2]
  simp [diagnostics_silent, Event.diagnostic, diagnostics_nil]

theorem diagnostics_frame (s : State) : diagnostics (frame s).trace = diagnostics s.trace := by
  obtain ⟨es, h1, h2⟩ := blit_trace s.info s.pixels s.width s.height
    { framebuffer := memset0 s.framebuffer s.info.smem_start s.info.smem_len
      trace := s.trace ++ [.memset s.info.smem_start s.info.smem_len] } s.height
  unfold frame
  rw [h1, diagnostics_append, diagnostics_append, diagnostics_copy es h2]
  simp [diagnostics_silent, Event.diagnostic, diagnostics_nil]

theorem diagnostics_fail (s : State) (d : Diagnostic) :
    diagnostics (s.fail d).trace = diagnostics s.trace ++ [d] := by
  simp [State.fail, diagnostics_append, diagnostics_print, diagnostics_nil]

theorem diagnostics_emit_silent (s : State) (es : List Event)
    (h : ∀ e ∈ es, e.diagnostic = none) :
    diagnostics (s.emit es).trace = diagnostics s.trace := by
  have : diagnostics es = [] := by
    induction es with
    | nil => rfl
    | cons e es ih =>
      rw [diagnostics_silent e es (h e (List.mem_cons_self _ _))]
      exact ih (fun e he => h e (List.mem_cons_of_mem _ he))
  simp [State.emit, diagnostics_append, this]

/-- What lines 9 to 117 do, against the spec's list of checks: either `main` has
returned 1 after printing the message of the first failing check, or it is at
the head of the display loop, has printed nothing, and only the mode commit can
still fail. -/
theorem start_outcome (w : World) :
    ((start w).ctl = .returned 1 ∧ ∃ d, d ≠ .updateFailed ∧ firstFailure w = some d ∧
        diagnostics (start w).trace = [d]) ∨
    ((start w).ctl = .loop ∧ (start w).activated = 0 ∧ diagnostics (start w).trace = [] ∧
      ((w.put_ok = false ∧ firstFailure w = some .updateFailed) ∨
       (w.put_ok = true ∧ firstFailure w = none))) := by
  by_cases hargs : w.argument_count < 2
  · left
    rw [start_usage w hargs]
    exact ⟨rfl, .usage, by decide, by simp [firstFailure, hargs], rfl⟩
  have h2 : 2 ≤ w.argument_count := by omega
  cases himg : w.image with
  | none =>
    left
    rw [start_noImage w h2 himg]
    exact ⟨rfl, .couldNotOpenFile, by decide, by simp [firstFailure, hargs, himg], rfl⟩
  | some file =>
    by_cases hbpp : bits_per_pixel (memory w file) w.image_data = 24
    · rw [start_24 w file h2 himg hbpp]
      have hS : diagnostics (extract w file (header w file)).trace = [] := by
        rw [diagnostics_extract, diagnostics_header]
      have hsilent : ∀ (es : List Event), (∀ e ∈ es, e.diagnostic = none) → ∀ d,
          diagnostics (((extract w file (header w file)).emit es).fail d).trace = [d] := by
        intro es hes d
        rw [diagnostics_fail, diagnostics_emit_silent _ _ hes, hS]
        rfl
      rcases device_cases w (extract w file (header w file)) with
        ⟨hfb, h⟩ | ⟨hfb, hfix, h⟩ | ⟨info, hfb, hfix, hvar, h⟩ |
        ⟨info, var, hfb, hfix, hvar, hsize, h⟩ | ⟨info, var, hfb, hfix, hvar, hsize, hmap, h⟩ |
        ⟨info, var, m, hfb, hfix, hvar, hsize, hmap, h⟩
      · left
        rw [h]
        exact ⟨rfl, .fbOpenFailed, by decide, by simp [firstFailure, hargs, himg, hbpp, hfb],
          hsilent _ (by simp [Event.diagnostic]) _⟩
      · left
        rw [h]
        exact ⟨rfl, .fbInfoFailed, by decide,
          by simp [firstFailure, hargs, himg, hbpp, hfb, hfix],
          hsilent _ (by simp [Event.diagnostic]) _⟩
      · left
        rw [h]
        exact ⟨rfl, .displayInfoFailed, by decide,
          by simp [firstFailure, hargs, himg, hbpp, hfb, hfix, hvar],
          hsilent _ (by simp [Event.diagnostic]) _⟩
      · left
        rw [h]
        have hsize2 : width (memory w file) w.image_data > var.xres ∨
            height (memory w file) w.image_data > var.yres := hsize
        exact ⟨rfl, .tooLarge, by decide,
          by simp only [firstFailure, hargs, himg, hbpp, hfb, hfix, hvar]; simp [hsize2],
          hsilent _ (by simp [Event.diagnostic]) _⟩
      · left
        rw [h]
        have hsize2 : ¬ (width (memory w file) w.image_data > var.xres ∨
            height (memory w file) w.image_data > var.yres) := hsize
        exact ⟨rfl, .mapFailed, by decide,
          by simp only [firstFailure, hargs, himg, hbpp, hfb, hfix, hvar, hmap]; simp [hsize2],
          hsilent _ (by simp [Event.diagnostic]) _⟩
      · right
        rw [h]
        have hsize2 : ¬ (width (memory w file) w.image_data > var.xres ∨
            height (memory w file) w.image_data > var.yres) := hsize
        refine ⟨rfl, rfl, ?_, ?_⟩
        · show diagnostics ((extract w file (header w file)).emit _).trace = []
          rw [diagnostics_emit_silent _ _ (by simp [Event.diagnostic]), hS]
        · cases hput : w.put_ok with
          | false =>
            left
            refine ⟨rfl, ?_⟩
            simp only [firstFailure, hargs, himg, hbpp, hfb, hfix, hvar, hmap]
            simp [hsize2, hput]
          | true =>
            right
            refine ⟨rfl, ?_⟩
            simp only [firstFailure, hargs, himg, hbpp, hfb, hfix, hvar, hmap]
            simp [hsize2, hput]
    · left
      rw [start_not24 w file h2 himg hbpp]
      refine ⟨rfl, .mustBe24, by decide, by simp [firstFailure, hargs, himg, hbpp], ?_⟩
      rw [diagnostics_fail, diagnostics_header]
      rfl


/-! ## Traces only grow -/

theorem forLoop_shift {σ : Type} (body : Nat → σ → σ) (s : σ) (n : Nat) :
    forLoop body s (n + 1) = forLoop (fun i => body (i + 1)) (body 0 s) n := by
  induction n with
  | zero => rfl
  | succ n ih =>
    rw [forLoop_succ, ih]
    rfl

theorem forLoop_trace_extends {σ : Type} (tr : σ → List Event) (body : Nat → σ → σ)
    (h : ∀ i s, ∃ es, tr (body i s) = tr s ++ es) (s : σ) (n : Nat) :
    ∃ es, tr (forLoop body s n) = tr s ++ es := by
  induction n with
  | zero => exact ⟨[], by simp [forLoop]⟩
  | succ n ih =>
    obtain ⟨es, h1⟩ := ih
    obtain ⟨fs, h2⟩ := h n (forLoop body s n)
    exact ⟨es ++ fs, by rw [forLoop_succ, h2, h1, List.append_assoc]⟩

theorem convertRow_trace_extends (mem : Memory) (width y : Nat) (s : Conv) :
    ∃ es, (convertRow mem width y s).trace = s.trace ++ es := by
  obtain ⟨es, h, _⟩ := convertPixels_trace mem width y s width
  exact ⟨es, h⟩

/-- The first thing a conversion of at least one pixel does is to load the three
bytes at the initial read pointer and store their word at index 0. -/
theorem convert_first_loads (mem : Memory) (width rows : Nat) (s : Conv) (hw : 0 < width)
    (hr : 0 < rows) :
    ∃ es, (convert mem width s rows).trace = s.trace ++ [.load8 (s.pixel + 1),
      .load8 (s.pixel + 2), .load8 s.pixel, .storePixel 0 (packAt mem s.pixel)] ++ es := by
  obtain ⟨W, rfl⟩ : ∃ W, width = W + 1 := ⟨width - 1, by omega⟩
  obtain ⟨H, rfl⟩ : ∃ H, rows = H + 1 := ⟨rows - 1, by omega⟩
  unfold convert
  rw [forLoop_shift]
  obtain ⟨es1, h1⟩ := forLoop_trace_extends Conv.trace
    (fun i => convertRow mem (W + 1) (i + 1))
    (fun i s => convertRow_trace_extends mem (W + 1) (i + 1) s)
    (convertRow mem (W + 1) 0 s) H
  have h2 : (convertRow mem (W + 1) 0 s).trace
      = (forLoop (convertPixel mem (W + 1) 0) s (W + 1)).trace := rfl
  rw [forLoop_shift] at h2
  obtain ⟨es2, h3⟩ := forLoop_trace_extends Conv.trace
    (fun i => convertPixel mem (W + 1) 0 (i + 1))
    (fun i s => ⟨_, rfl⟩) (convertPixel mem (W + 1) 0 0 s) W
  have h4 : (convertPixel mem (W + 1) 0 0 s).trace = s.trace ++ [.load8 (s.pixel + 1),
      .load8 (s.pixel + 2), .load8 s.pixel, .storePixel 0 (packAt mem s.pixel)] := by
    simp [convertPixel, packAt]
  exact ⟨es2 ++ es1, by rw [h1, h2, h3, h4, List.append_assoc]⟩

theorem device_trace_extends (w : World) (s : State) :
    ∃ es, (device w s).trace = s.trace ++ es := by
  rcases device_cases w s with ⟨_, h⟩ | ⟨_, _, h⟩ | ⟨_, _, _, _, h⟩ | ⟨_, _, _, _, _, _, h⟩ |
    ⟨_, _, _, _, _, _, _, h⟩ | ⟨_, _, _, _, _, _, _, _, h⟩ <;> rw [h] <;>
    simp only [State.fail, State.emit, List.append_assoc] <;> exact ⟨_, rfl⟩

theorem start_trace_header (w : World) (file : List Nat) (hargs : 2 ≤ w.argument_count)
    (himg : w.image = some file) : ∃ es, (start w).trace = (header w file).trace ++ es := by
  by_cases hbpp : bits_per_pixel (memory w file) w.image_data = 24
  · rw [start_24 w file hargs himg hbpp]
    obtain ⟨es, h⟩ := device_trace_extends w (extract w file (header w file))
    obtain ⟨fs, g, _⟩ := extract_trace w file (header w file)
    exact ⟨_, by rw [h, g, List.append_assoc, List.append_assoc]⟩
  · rw [start_not24 w file hargs himg hbpp]
    exact ⟨_, rfl⟩

theorem frame_trace_extends (s : State) : ∃ es, (frame s).trace = s.trace ++ es := by
  obtain ⟨es, h1, _⟩ := blit_trace s.info s.pixels s.width s.height
    { framebuffer := memset0 s.framebuffer s.info.smem_start s.info.smem_len
      trace := s.trace ++ [.memset s.info.smem_start s.info.smem_len] } s.height
  exact ⟨_, by unfold frame; rw [h1, List.append_assoc]⟩

theorem step_trace_extends (w : World) (s : State) : ∃ es, (step w s).trace = s.trace ++ es := by
  by_cases hc : s.ctl = .loop
  · obtain ⟨es, h⟩ := frame_trace_extends s
    simp only [step, hc]
    split
    · split
      · refine ⟨es ++ ([.putVarInfo (s.activate ||| (w.FB_ACTIVATE_NOW ||| w.FB_ACTIVATE_FORCE))]
          ++ [.print .updateFailed]), ?_⟩
        simp only [State.fail, State.emit, h, List.append_assoc]
      · refine ⟨es ++ [.putVarInfo (s.activate ||| (w.FB_ACTIVATE_NOW ||| w.FB_ACTIVATE_FORCE))],
          ?_⟩
        simp only [State.emit, h, List.append_assoc]
    · exact ⟨_, h⟩
  · rw [step_fixed w s hc]
    exact ⟨[], by simp⟩

theorem main_trace_extends (w : World) (n : Nat) :
    ∃ es, (main w n).trace = (start w).trace ++ es := by
  induction n with
  | zero => exact ⟨[], by simp [main_zero]⟩
  | succ n ih =>
    obtain ⟨es, h⟩ := ih
    obtain ⟨fs, g⟩ := step_trace_extends w (main w n)
    exact ⟨es ++ fs, by rw [main_succ, g, h, List.append_assoc]⟩

/-! ## Header fields -/

theorem memory_file (w : World) (file : List Nat) (j : Nat) (hj : j < file.length) :
    memory w file (w.image_data + j) = file.getD j 0 := by
  simp [memory, hj]

theorem memory_heap (w : World) (file : List Nat) (a : Nat)
    (ha : w.image_data + file.length ≤ a) : memory w file a = w.heap a := by
  have h : ¬ (w.image_data ≤ a ∧ a < w.image_data + file.length) := by omega
  simp [memory, h]

theorem load32_file (w : World) (file : List Nat) (i : Nat) (hi : i + 4 ≤ file.length) :
    load32 (memory w file) (w.image_data + i) = fileU32 file i := by
  simp only [load32, load8, fileU32, Nat.add_assoc]
  rw [memory_file w file i (by omega), memory_file w file (i + 1) (by omega),
    memory_file w file (i + 2) (by omega), memory_file w file (i + 3) (by omega)]

theorem load32_heap (w : World) (file : List Nat) (a : Nat)
    (ha : w.image_data + file.length ≤ a) : load32 (memory w file) a = load32 w.heap a := by
  simp only [load32, load8]
  rw [memory_heap w file a ha, memory_heap w file (a + 1) (by omega),
    memory_heap w file (a + 2) (by omega), memory_heap w file (a + 3) (by omega)]

theorem start_width (w : World) (file : List Nat) (h : 2 ≤ w.argument_count)
    (himg : w.image = some file) : (start w).width = width (memory w file) w.image_data := by
  by_cases hbpp : bits_per_pixel (memory w file) w.image_data = 24
  · rw [start_24 w file h himg hbpp, device_width]; rfl
  · rw [start_not24 w file h himg hbpp]; rfl

theorem start_height (w : World) (file : List Nat) (h : 2 ≤ w.argument_count)
    (himg : w.image = some file) : (start w).height = height (memory w file) w.image_data := by
  by_cases hbpp : bits_per_pixel (memory w file) w.image_data = 24
  · rw [start_24 w file h himg hbpp, device_height]; rfl
  · rw [start_not24 w file h himg hbpp]; rfl

/-- C1 (amended): for every file buffer of at least 32 bytes whose bits-per-pixel
field is 24, the decoded width and height are the little-endian unsigned 32-bit
fields at bytes 18 and 22; the pixel-data offset is the field at byte 10 read as
a signed `int`, so the read pointer starts at `image_data` plus the sign-extended
field: at byte index `pixelDataOffset` of the file when the field is below
`2 ^ 31`, and `2 ^ 32 - pixelDataOffset` bytes before the buffer otherwise.  When
the image has a pixel, the first loads after the header are the three bytes at
that pointer. -/
theorem header_fields_decoded (w : World) (file : List Nat) (hargs : 2 ≤ w.argument_count)
    (himg : w.image = some file) (hlen : 32 ≤ file.length) (hbpp : fileU32 file 28 = 24) :
    start w = device w (extract w file (header w file)) ∧
    (start w).width = fileU32 file 18 ∧ (start w).height = fileU32 file 22 ∧
    pixel (memory w file) w.image_data
      = (w.image_data + signExtend (fileU32 file 10)) % 2 ^ 64 ∧
    (fileU32 file 10 < 2 ^ 31 → w.image_data + fileU32 file 10 < 2 ^ 64 →
      pixel (memory w file) w.image_data = w.image_data + fileU32 file 10) ∧
    (2 ^ 31 ≤ fileU32 file 10 → 2 ^ 32 ≤ w.image_data + fileU32 file 10 →
      w.image_data < 2 ^ 64 →
      pixel (memory w file) w.image_data + 2 ^ 32 = w.image_data + fileU32 file 10) ∧
    (0 < fileU32 file 18 → 0 < fileU32 file 22 →
      ∃ es, (start w).trace = (header w file).trace ++
        [.load32 (w.image_data + 10),
         .allocPixels (fileU32 file 18 * fileU32 file 22 % 2 ^ 32 * 4),
         .load8 (pixel (memory w file) w.image_data + 1),
         .load8 (pixel (memory w file) w.image_data + 2),
         .load8 (pixel (memory w file) w.image_data),
         .storePixel 0 (packAt (memory w file) (pixel (memory w file) w.image_data))] ++ es) := by
  have hp : pixel (memory w file) w.image_data
      = (w.image_data + signExtend (fileU32 file 10)) % 2 ^ 64 := by
    simp only [pixel, load32_file w file 10 (by omega)]
  have h10 : fileU32 file 10 < 2 ^ 32 := by
    rw [← load32_file w file 10 (by omega)]; exact load32_lt _ _
  have h24 : bits_per_pixel (memory w file) w.image_data = 24 := by
    rw [bits_per_pixel, load32_file w file 28 (by omega), hbpp]
  have hW : width (memory w file) w.image_data = fileU32 file 18 := by
    rw [width, load32_file w file 18 (by omega)]
  have hH : height (memory w file) w.image_data = fileU32 file 22 := by
    rw [height, load32_file w file 22 (by omega)]
  refine ⟨start_24 w file hargs himg h24, ?_, ?_, hp, ?_, ?_, ?_⟩
  · rw [start_width w file hargs himg, hW]
  · rw [start_height w file hargs himg, hH]
  · intro h31 h64
    rw [hp, signExtend, if_pos h31, Nat.mod_eq_of_lt h64]
  · intro h31 h32 h64
    rw [hp, signExtend, if_neg (by omega)]
    omega
  · intro hw hh
    obtain ⟨es, h⟩ := device_trace_extends w (extract w file (header w file))
    obtain ⟨fs, g⟩ := convert_first_loads (memory w file) (width (memory w file) w.image_data)
      (height (memory w file) w.image_data)
      ⟨pixel (memory w file) w.image_data, (header w file).pixels,
        (header w file).trace ++ [.load32 (w.image_data + 10),
          .allocPixels (width (memory w file) w.image_data
            * height (memory w file) w.image_data % 2 ^ 32 * 4)]⟩
      (by rw [hW]; exact hw) (by rw [hH]; exact hh)
    have g2 : (extract w file (header w file)).trace = _ := g
    refine ⟨fs ++ es, ?_⟩
    rw [start_24 w file hargs himg h24, h, g2, hW, hH]
    simp only [List.append_assoc, List.cons_append, List.nil_append]

/-- Witness for `header_fields_decoded`: the 2x2 red BMP at address 4096, whose
pixel reading starts at file byte 54. -/
theorem header_fields_decoded_witness :
    2 ≤ redWorld.argument_count ∧ redWorld.image = some red2x2 ∧ 32 ≤ red2x2.length ∧
    fileU32 red2x2 28 = 24 ∧
    (start redWorld).width = fileU32 red2x2 18 ∧ (start redWorld).height = fileU32 red2x2 22 ∧
    pixel (memory redWorld red2x2) redWorld.image_data = redWorld.image_data + 54 :=
  ⟨by decide, rfl, by decide, by decide,
    (header_fields_decoded redWorld red2x2 (by decide) rfl (by decide) (by decide)).2.1,
    (header_fields_decoded redWorld red2x2 (by decide) rfl (by decide) (by decide)).2.2.1,
    (header_fields_decoded redWorld red2x2 (by decide) rfl (by decide) (by decide)).2.2.2.2.1
      (by decide) (by decide)⟩

/-- C1 fails as stated: a 32-byte file with bits-per-pixel 24 whose offset field
is `0x80000000`, loaded at address `2 ^ 32`.  The read pointer starts `2 ^ 31`
bytes before the buffer, not at byte index `0x80000000` of the file, and the one
pixel of the image is loaded from there. -/
theorem header_fields_unsigned_offset_fails :
    32 ≤ farOffsetFile.length ∧ fileU32 farOffsetFile 28 = 24 ∧
    fileU32 farOffsetFile 10 = 2 ^ 31 ∧
    pixel (memory farOffsetWorld farOffsetFile) farOffsetWorld.image_data
      ≠ farOffsetWorld.image_data + fileU32 farOffsetFile 10 ∧
    pixel (memory farOffsetWorld farOffsetFile) farOffsetWorld.image_data
      = farOffsetWorld.image_data - 2 ^ 31 ∧
    Event.load8 (farOffsetWorld.image_data - 2 ^ 31) ∈ (start farOffsetWorld).trace ∧
    Event.load8 (farOffsetWorld.image_data + fileU32 farOffsetFile 10)
      ∉ (start farOffsetWorld).trace := by
  decide

/-! ## The converter -/

/-- C2 (code defect): the 2x2 BMP with the standard pixel-data offset 54, loaded
at the 4-byte aligned address 4096.  The padded row length is 8, so stored row 1
begins at file byte 62; the converter begins its second row at file byte 60
(it rounds the address, not the row length, up to a multiple of 4), loads the
padding byte 60 as pixel data and never loads byte 66. -/
theorem row_start_at_offset_54 :
    redWorld.image_data % 4 = 0 ∧ fileU32 red2x2 10 = 54 ∧ fileU32 red2x2 18 = 2 ∧
    (convert (memory redWorld red2x2) 2
      ⟨pixel (memory redWorld red2x2) redWorld.image_data, redWorld.pixels_heap, []⟩ 1).pixel
      = redWorld.image_data + 60 ∧
    redWorld.image_data + 54 + 1 * paddedRowBytes 2 = redWorld.image_data + 62 ∧
    Event.load8 (redWorld.image_data + 60) ∈ (start redWorld).trace ∧
    Event.load8 (redWorld.image_data + 66) ∉ (start redWorld).trace := by
  decide

theorem start_pixels (w : World) (file : List Nat) (h : 2 ≤ w.argument_count)
    (himg : w.image = some file) (hbpp : bits_per_pixel (memory w file) w.image_data = 24) :
    (start w).pixels =
      (convert (memory w file) (width (memory w file) w.image_data)
        ⟨pixel (memory w file) w.image_data, w.pixels_heap,
          (header w file).trace ++ [.load32 (w.image_data + 10),
            .allocPixels (width (memory w file) w.image_data
              * height (memory w file) w.image_data % 2 ^ 32 * 4)]⟩
        (height (memory w file) w.image_data)).pixels := by
  rw [start_24 w file h himg hbpp, device_pixels, extract_pixels]
  rfl

/-- C3 (amended): the conversion loop does not flip.  For every width `w` and
height `h` with `w * h < 2 ^ 32`, so that line 56 allocates `w * h` entries, and
pixel data that start at a 4-byte aligned address, the pixel buffer has at index
`y * w + x` (`x < w`, `y < h`), an index inside the allocation, the packed
value of pixel `x` of stored source row `y`: buffer row 0 is the first stored
row and buffer row `h - 1` the last.  The flip is made by the copy loop, which
takes for device row `y` the buffer entry `(h - 1 - y) * w + x`. -/
theorem buffer_keeps_stored_order (w : World) (file : List Nat)
    (hargs : 2 ≤ w.argument_count) (himg : w.image = some file)
    (hbpp : bits_per_pixel (memory w file) w.image_data = 24)
    (h4 : pixel (memory w file) w.image_data % 4 = 0)
    (hb : pixel (memory w file) w.image_data
      + (start w).height * paddedRowBytes (start w).width + 3 < 2 ^ 64)
    (hk : (start w).height * (start w).width < 2 ^ 32) (x y : Nat)
    (hx : x < (start w).width) (hy : y < (start w).height) :
    y * (start w).width + x < (start w).width * (start w).height % 2 ^ 32 ∧
    (start w).pixels (y * (start w).width + x)
      = packAt (memory w file)
          (pixel (memory w file) w.image_data + y * paddedRowBytes (start w).width + 3 * x) ∧
    blitWord (start w).pixels (start w).width (start w).height y x
      = (start w).pixels (((start w).height - 1 - y) * (start w).width + x) % 2 ^ 32 := by
  have hW := start_width w file hargs himg
  have hH := start_height w file hargs himg
  rw [hW] at hb hk hx
  rw [hH] at hb hk hy
  refine ⟨?_, ?_, ?_⟩
  · rw [hW, hH, Nat.mul_comm (width (memory w file) w.image_data), Nat.mod_eq_of_lt hk]
    have h1 : y + 1 ≤ height (memory w file) w.image_data := hy
    have h2 := Nat.mul_le_mul_right (width (memory w file) w.image_data) h1
    rw [Nat.succ_mul] at h2
    omega
  · rw [hW, start_pixels w file hargs himg hbpp]
    exact (convert_pixels_aligned (memory w file) _ _ _ h4 hb (Nat.le_of_lt hk)).1 y x hy hx
  · rw [hW, hH]
    have h1 : height (memory w file) w.image_data - 1 - y + 1
        ≤ height (memory w file) w.image_data := by omega
    have h2 := Nat.mul_le_mul_right (width (memory w file) w.image_data) h1
    rw [Nat.succ_mul] at h2
    have h3 : (height (memory w file) w.image_data - 1 - y) * width (memory w file) w.image_data
        + x < 2 ^ 32 := by omega
    unfold blitWord
    rw [Nat.mod_eq_of_lt (by omega : (height (memory w file) w.image_data - 1 - y)
      * width (memory w file) w.image_data < 2 ^ 32), Nat.mod_eq_of_lt h3]

/-- Witness for `buffer_keeps_stored_order`: the 1x2 image, entry 1. -/
theorem buffer_keeps_stored_order_witness :
    2 ≤ twoRowsWorld.argument_count ∧ twoRowsWorld.image = some twoRows ∧
    bits_per_pixel (memory twoRowsWorld twoRows) twoRowsWorld.image_data = 24 ∧
    pixel (memory twoRowsWorld twoRows) twoRowsWorld.image_data % 4 = 0 ∧
    pixel (memory twoRowsWorld twoRows) twoRowsWorld.image_data
      + (start twoRowsWorld).height * paddedRowBytes (start twoRowsWorld).width + 3 < 2 ^ 64 ∧
    (start twoRowsWorld).height * (start twoRowsWorld).width < 2 ^ 32 ∧
    0 < (start twoRowsWorld).width ∧ 1 < (start twoRowsWorld).height ∧
    (1 * (start twoRowsWorld).width + 0
      < (start twoRowsWorld).width * (start twoRowsWorld).height % 2 ^ 32 ∧
    (start twoRowsWorld).pixels (1 * (start twoRowsWorld).width + 0)
      = packAt (memory twoRowsWorld twoRows)
          (pixel (memory twoRowsWorld twoRows) twoRowsWorld.image_data
            + 1 * paddedRowBytes (start twoRowsWorld).width + 3 * 0) ∧
    blitWord (start twoRowsWorld).pixels (start twoRowsWorld).width (start twoRowsWorld).height
        1 0
      = (start twoRowsWorld).pixels (((start twoRowsWorld).height - 1 - 1)
          * (start twoRowsWorld).width + 0) % 2 ^ 32) :=
  ⟨by decide, rfl, by decide, by decide, by decide, by decide, by decide, by decide,
    buffer_keeps_stored_order twoRowsWorld twoRows (by decide) rfl (by decide) (by decide)
      (by decide) (by decide) 0 1 (by decide) (by decide)⟩

/-- C3 fails as stated: the 1x2 image whose stored row 0 is the pixel `(1, 2, 3)`
and whose stored row 1 is the pixel `(4, 5, 6)`.  Buffer row 0 holds stored row 0
and buffer row 1 holds stored row 1, while the claim puts the last stored row
(row `h - 1 - 0 = 1`) into buffer row 0. -/
theorem buffer_row_zero_is_first_stored_row :
    (start twoRowsWorld).width = 1 ∧ (start twoRowsWorld).height = 2 ∧
    (start twoRowsWorld).pixels (0 * 1 + 0) = pack 1 2 3 ∧
    (start twoRowsWorld).pixels (1 * 1 + 0) = pack 4 5 6 ∧
    packAt (memory twoRowsWorld twoRows)
      (pixel (memory twoRowsWorld twoRows) twoRowsWorld.image_data
        + (2 - 1 - 0) * paddedRowBytes 1 + 3 * 0) = pack 4 5 6 ∧
    (start twoRowsWorld).pixels (0 * 1 + 0) ≠
      packAt (memory twoRowsWorld twoRows)
        (pixel (memory twoRowsWorld twoRows) twoRowsWorld.image_data
          + (2 - 1 - 0) * paddedRowBytes 1 + 3 * 0) := by
  decide

/-- C4: for source bytes `b`, `g`, `r` (stored in that order) the word built by
line 61 is `0xFF000000 + b * 2 ^ 16 + r * 2 ^ 8 + g`; its bits 24..31 are `0xFF`;
bits 16..23, bits 0..7 and bits 8..15 give back `b`, `g` and `r`; so the packing
is injective on byte triples. -/
theorem channel_round_trip (b g r : Nat) (hb : b < 256) (hg : g < 256) (hr : r < 256) :
    pack b g r = 0xFF000000 + b * 2 ^ 16 + r * 2 ^ 8 + g ∧
    pack b g r / 2 ^ 24 % 256 = 0xFF ∧
    pack b g r / 2 ^ 16 % 256 = b ∧ pack b g r % 256 = g ∧ pack b g r / 2 ^ 8 % 256 = r ∧
    (∀ b2 g2 r2, b2 < 256 → g2 < 256 → r2 < 256 → pack b2 g2 r2 = pack b g r →
      b2 = b ∧ g2 = g ∧ r2 = r) ∧
    (∀ (mem : Memory) (width y x : Nat) (s : Conv), mem s.pixel = b → mem (s.pixel + 1) = g →
      mem (s.pixel + 2) = r →
      (convertPixel mem width y x s).pixels ((x + y * width % 2 ^ 32) % 2 ^ 32) = pack b g r) := by
  have e := pack_eq b g r hb hg hr
  refine ⟨e, ?_, ?_, ?_, ?_, ?_, ?_⟩
  · rw [e]; omega
  · rw [e]; omega
  · rw [e]; omega
  · rw [e]; omega
  · intro b2 g2 r2 hb2 hg2 hr2 h
    rw [e, pack_eq b2 g2 r2 hb2 hg2 hr2] at h
    omega
  · intro mem width y x s h0 h1 h2
    simp [convertPixel, setAt, load8, h0, h1, h2, Nat.mod_eq_of_lt hb, Nat.mod_eq_of_lt hg,
      Nat.mod_eq_of_lt hr]

/-- Witness for `channel_round_trip`: a red source pixel. -/
theorem channel_round_trip_witness :
    0 < 256 ∧ 255 < 256 ∧
    (pack 0 0 255 = 0xFF000000 + 0 * 2 ^ 16 + 255 * 2 ^ 8 + 0 ∧
    pack 0 0 255 / 2 ^ 24 % 256 = 0xFF ∧
    pack 0 0 255 / 2 ^ 16 % 256 = 0 ∧ pack 0 0 255 % 256 = 0 ∧ pack 0 0 255 / 2 ^ 8 % 256 = 255 ∧
    (∀ b2 g2 r2, b2 < 256 → g2 < 256 → r2 < 256 → pack b2 g2 r2 = pack 0 0 255 →
      b2 = 0 ∧ g2 = 0 ∧ r2 = 255) ∧
    (∀ (mem : Memory) (width y x : Nat) (s : Conv), mem s.pixel = 0 → mem (s.pixel + 1) = 0 →
      mem (s.pixel + 2) = 255 →
      (convertPixel mem width y x s).pixels ((x + y * width % 2 ^ 32) % 2 ^ 32)
        = pack 0 0 255)) :=
  ⟨by decide, by decide, channel_round_trip 0 0 255 (by decide) (by decide) (by decide)⟩

/-! ## Exit status -/

/-- Every run, step by step: if the spec's first failing check is `d`, then from the
first step on `main` has returned 1 and has printed `d` and nothing else;
if no check fails, `main` never returns and prints no diagnostic. -/
theorem main_outcome (w : World) (n : Nat) :
    (∃ d, firstFailure w = some d ∧ (main w (n + 1)).ctl = .returned 1 ∧
      diagnostics (main w (n + 1)).trace = [d] ∧
      (diagnostics (main w n).trace = [d] ∨ diagnostics (main w n).trace = [])) ∨
    (firstFailure w = none ∧ (main w (n + 1)).ctl = .spin ∧ (main w n).ctl ≠ .returned 1 ∧
      (∀ c, (main w n).ctl ≠ .returned c) ∧
      diagnostics (main w (n + 1)).trace = [] ∧ diagnostics (main w n).trace = []) := by
  rcases start_outcome w with ⟨hc, d, _, hf, hd⟩ | ⟨hc, ha, hd, ⟨hp, hf⟩ | ⟨hp, hf⟩⟩
  · left
    have hne : (start w).ctl ≠ .loop := by rw [hc]; decide
    rw [main_of_not_loop w hne, main_of_not_loop w hne]
    exact ⟨d, hf, hc, hd, Or.inl hd⟩
  · left
    obtain ⟨h1, h2⟩ := step_put_failed w (start w) hc ha hp
    refine ⟨.updateFailed, hf, ?_, ?_, ?_⟩
    · rw [main_of_loop w hc, h1]
    · rw [main_of_loop w hc, h2, diagnostics_append, diagnostics_frame, hd]
      rfl
    · cases n with
      | zero => right; exact hd
      | succ n =>
        left
        rw [main_of_loop w hc, h2, diagnostics_append, diagnostics_frame, hd]
        rfl
  · right
    obtain ⟨h1, h2⟩ := step_put_ok w (start w) hc ha hp
    have hd1 : ∀ k, diagnostics (main w (k + 1)).trace = [] := by
      intro k
      rw [main_of_loop w hc, h2, diagnostics_append, diagnostics_frame, hd]
      rfl
    have hc1 : ∀ k, (main w (k + 1)).ctl = .spin := by
      intro k
      rw [main_of_loop w hc, h1]
    have hcn : ∀ c, (main w n).ctl ≠ .returned c := by
      intro c
      cases n with
      | zero => rw [main_zero, hc]; exact Ctl.noConfusion
      | succ n => rw [hc1 n]; exact Ctl.noConfusion
    refine ⟨hf, hc1 n, hcn 1, hcn, hd1 n, ?_⟩
    cases n with
    | zero => exact hd
    | succ n => exact hd1 n

theorem main_returned_one (w : World) (n c : Nat) (h : (main w n).ctl = .returned c) :
    c = 1 ∧ firstFailure w ≠ none := by
  cases n with
  | zero =>
    rcases start_outcome w with ⟨hc, d, _, hf, _⟩ | ⟨hc, _⟩
    · rw [main_zero, hc] at h
      injection h with h
      exact ⟨h.symm, by rw [hf]; simp⟩
    · rw [main_zero, hc] at h
      cases h
  | succ n =>
    rcases main_outcome w n with ⟨d, hf, hc, _⟩ | ⟨_, hc, _⟩
    · rw [hc] at h
      injection h with h
      exact ⟨h.symm, by rw [hf]; simp⟩
    · rw [hc] at h
      cases h

theorem step_width (w : World) (s : State) : (step w s).width = s.width := by
  unfold step
  split
  · rfl
  · rfl
  · simp only []
    split
    · split <;> rfl
    · rfl

theorem step_height (w : World) (s : State) : (step w s).height = s.height := by
  unfold step
  split
  · rfl
  · rfl
  · simp only []
    split
    · split <;> rfl
    · rfl

theorem step_info (w : World) (s : State) : (step w s).info = s.info := by
  unfold step
  split
  · rfl
  · rfl
  · simp only []
    split
    · split <;> rfl
    · rfl

theorem step_defined_false (w : World) (s : State) (h : s.defined w = false) :
    (step w s).defined w = false := by
  obtain ⟨es, he⟩ := step_trace_extends w s
  unfold State.defined at h ⊢
  rw [step_width, step_height, step_info, he, List.all_append, h, Bool.false_and]

theorem main_defined_false (w : World) (n : Nat) (h : (main w n).defined w = false) (m : Nat)
    (hm : n ≤ m) : (main w m).defined w = false := by
  induction m with
  | zero =>
    have : n = 0 := by omega
    subst this
    exact h
  | succ m ih =>
    by_cases hn : n = m + 1
    · subst hn; exact h
    · rw [main_succ]
      exact step_defined_false w _ (ih (by omega))

theorem main_defined_always (w : World) (h0 : (main w 0).defined w = true)
    (h1 : (main w 1).defined w = true) (n : Nat) : (main w n).defined w = true := by
  cases n with
  | zero => exact h0
  | succ n =>
    by_cases hc : (start w).ctl = .loop
    · rw [main_of_loop w hc n, ← main_of_loop w hc 0]
      exact h1
    · rw [main_of_not_loop w hc]
      exact h0

theorem verdict_eq_returned (w : World) (n c : Nat) (h : (main w n).defined w = true)
    (hc : (main w n).ctl = .returned c) : verdict w n = .returned c := by
  unfold verdict
  rw [if_pos h, hc]

theorem verdict_eq_running (w : World) (n : Nat) (h : (main w n).defined w = true)
    (hc : ∀ c, (main w n).ctl ≠ .returned c) : verdict w n = .running := by
  unfold verdict
  rw [if_pos h]
  split
  · rename_i c heq
    exact absurd heq (hc c)
  · rfl

theorem verdict_returned (w : World) (n c : Nat) (h : verdict w n = .returned c) :
    (main w n).defined w = true ∧ (main w n).ctl = .returned c := by
  unfold verdict at h
  split at h
  · rename_i hd
    refine ⟨hd, ?_⟩
    split at h
    · injection h with h
      subst h
      assumption
    · cases h
  · cases h

/-- C9 (amended): with the outcomes of the external calls as inputs, and as long as
the run stays defined (the unchecked `fstat`, `malloc` and `read` calls succeed
and every load, store, clear and copy lies inside the file buffer, the word
buffer or the mapping), `main` returns exactly when one of the spec's checks
fails (taken in the spec's order: missing argument, file cannot be opened, bits
per pixel not 24, device cannot be opened, fixed query fails, variable query
fails, image larger than the display, mapping fails, mode commit fails); it then
returns 1 and the only diagnostic printed is the one of the first failing
check.  When no check fails it is in the loop at every step and prints no
diagnostic.  No status other than 1 is ever returned, and a returned status
always reports the first failing check.  A run that has left its objects stays
undefined at every later step. -/
theorem exit_status (w : World) :
    (∀ d, firstFailure w = some d → ∀ n, 1 ≤ n → (main w n).defined w = true →
      verdict w n = .returned 1 ∧ diagnostics (main w n).trace = [d]) ∧
    (firstFailure w = none → ∀ n, (main w n).defined w = true →
      verdict w n = .running ∧ diagnostics (main w n).trace = []) ∧
    ((∀ n, (main w n).defined w = true) →
      ((∃ n c, verdict w n = .returned c) ↔ firstFailure w ≠ none)) ∧
    (∀ n c, verdict w n = .returned c →
      c = 1 ∧ ∃ d, firstFailure w = some d ∧ diagnostics (main w n).trace = [d]) ∧
    (∀ n, (main w n).defined w = false → ∀ m, n ≤ m → verdict w m = .undefined) := by
  have key : ∀ n c, verdict w n = .returned c →
      c = 1 ∧ ∃ d, firstFailure w = some d ∧ diagnostics (main w n).trace = [d] := by
    intro n c h
    obtain ⟨_, hc⟩ := verdict_returned w n c h
    cases n with
    | zero =>
      rcases start_outcome w with ⟨hc2, d, _, hf, hd⟩ | ⟨hc2, _⟩
      · rw [main_zero, hc2] at hc
        injection hc with hc
        exact ⟨hc.symm, d, hf, hd⟩
      · rw [main_zero, hc2] at hc
        cases hc
    | succ n =>
      rcases main_outcome w n with ⟨d, hf, hc2, hd, _⟩ | ⟨_, hc2, _⟩
      · rw [hc2] at hc
        injection hc with hc
        exact ⟨hc.symm, d, hf, hd⟩
      · rw [hc2] at hc
        cases hc
  refine ⟨?_, ?_, ?_, key, ?_⟩
  · intro d hf n hn hdef
    obtain ⟨k, rfl⟩ : ∃ k, n = k + 1 := ⟨n - 1, by omega⟩
    rcases main_outcome w k with ⟨d2, hf2, hc, hd, _⟩ | ⟨hf2, _⟩
    · rw [hf] at hf2
      injection hf2 with hf2
      subst hf2
      exact ⟨verdict_eq_returned w _ 1 hdef hc, hd⟩
    · rw [hf] at hf2
      cases hf2
  · intro hf n hdef
    rcases main_outcome w n with ⟨d2, hf2, _⟩ | ⟨_, _, _, hc, _, hd⟩
    · rw [hf] at hf2
      cases hf2
    · exact ⟨verdict_eq_running w n hdef hc, hd⟩
  · intro hall
    constructor
    · rintro ⟨n, c, h⟩
      obtain ⟨_, d, hf, _⟩ := key n c h
      rw [hf]; simp
    · intro hf
      rcases main_outcome w 0 with ⟨d2, _, hc, _⟩ | ⟨hf2, _⟩
      · exact ⟨1, 1, verdict_eq_returned w 1 1 (hall 1) hc⟩
      · exact absurd hf2 hf
  · intro n h m hm
    unfold verdict
    rw [if_neg]
    rw [main_defined_false w n h m hm]
    simp

/-- Witness for `exit_status`: the red BMP on the 4x4 device stays defined at every
step, passes every check and is in the loop after 5 steps, and no step of it has
returned; the same run with a failing mode commit stays defined and returns 1
with the commit diagnostic; the same run with a failing `malloc` at line 56 is
undefined from the start on. -/
theorem exit_status_witness :
    firstFailure redWorld = none ∧ (main redWorld 5).defined redWorld = true ∧
    (verdict redWorld 5 = .running ∧ diagnostics (main redWorld 5).trace = []) ∧
    (∀ n, (main redWorld n).defined redWorld = true) ∧
    ((∃ n c, verdict redWorld n = .returned c) ↔ firstFailure redWorld ≠ none) ∧
    firstFailure commitFailsWorld = some .updateFailed ∧
    (main commitFailsWorld 1).defined commitFailsWorld = true ∧
    (verdict commitFailsWorld 1 = .returned 1 ∧
      diagnostics (main commitFailsWorld 1).trace = [.updateFailed]) ∧
    (main allocFailsWorld 0).defined allocFailsWorld = false ∧
    verdict allocFailsWorld 3 = .undefined :=
  ⟨by decide, by decide, (exit_status redWorld).2.1 (by decide) 5 (by decide),
    main_defined_always redWorld (by decide) (by decide),
    (exit_status redWorld).2.2.1 (main_defined_always redWorld (by decide) (by decide)),
    by decide, by decide, (exit_status commitFailsWorld).1 .updateFailed (by decide) 1
      (by decide) (by decide),
    by decide, (exit_status allocFailsWorld).2.2.2.2 0 (by decide) 3 (by decide)⟩

/-! ## Format and size checks -/

theorem firstFailure_mustBe24 (w : World) (file : List Nat) (hargs : 2 ≤ w.argument_count)
    (himg : w.image = some file) (hbpp : bits_per_pixel (memory w file) w.image_data = 24) :
    firstFailure w ≠ some .mustBe24 := by
  have h2 : ¬ w.argument_count < 2 := by omega
  simp only [firstFailure, h2, himg, hbpp]
  simp only [ne_eq, not_true_eq_false, if_false]
  repeat' split
  all_goals simp

theorem no_format_error_of_24 (w : World) (file : List Nat) (hargs : 2 ≤ w.argument_count)
    (himg : w.image = some file) (hbpp : bits_per_pixel (memory w file) w.image_data = 24)
    (n : Nat) : Diagnostic.mustBe24 ∉ diagnostics (main w n).trace := by
  have hne := firstFailure_mustBe24 w file hargs himg hbpp
  rcases main_outcome w n with ⟨d, hf, _, _, hd | hd⟩ | ⟨_, _, _, _, _, hd⟩
  · rw [hd]
    intro hmem
    rw [List.mem_singleton] at hmem
    rw [hf, ← hmem] at hne
    exact hne rfl
  · rw [hd]; simp
  · rw [hd]; simp

theorem format_error_run (w : World) (file : List Nat) (hargs : 2 ≤ w.argument_count)
    (himg : w.image = some file) (hbpp : bits_per_pixel (memory w file) w.image_data ≠ 24)
    (n : Nat) : main w n = (header w file).fail .mustBe24 := by
  have hs := start_not24 w file hargs himg hbpp
  rw [main_of_not_loop w (by rw [hs]; exact Ctl.noConfusion), hs]

/-- C5: for every file whose 32-bit field at byte 28 is not 24 the run returns 1
with the format diagnostic, and everything it has done by then is: open and
load the file, load the words at bytes 18, 22 and 28 (the last one twice), print
the diagnostic.  So it has not loaded the pixel-data offset at byte 10, has not
loaded or stored any pixel, and has not touched the display device.  Conversely,
when the field is 24 the format diagnostic is never printed. -/
theorem format_error_before_pixels (w : World) (file : List Nat)
    (hargs : 2 ≤ w.argument_count) (himg : w.image = some file) :
    (32 ≤ file.length → bits_per_pixel (memory w file) w.image_data = fileU32 file 28) ∧
    (bits_per_pixel (memory w file) w.image_data ≠ 24 → ∀ n,
      (main w n).ctl = .returned 1 ∧
      (main w n).trace = [.openImage, .readImage file.length, .load32 (w.image_data + 18),
        .load32 (w.image_data + 22), .load32 (w.image_data + 28), .load32 (w.image_data + 28),
        .print .mustBe24] ∧
      (∀ e ∈ (main w n).trace, e ≠ .load32 (w.image_data + 10) ∧ e.isPixelAccess = false ∧
        e.isDevice = false)) ∧
    (bits_per_pixel (memory w file) w.image_data = 24 → ∀ n,
      Diagnostic.mustBe24 ∉ diagnostics (main w n).trace) := by
  refine ⟨fun hlen => load32_file w file 28 (by omega), ?_, ?_⟩
  · intro hbpp n
    have ht : (main w n).trace = [.openImage, .readImage file.length,
        .load32 (w.image_data + 18), .load32 (w.image_data + 22), .load32 (w.image_data + 28),
        .load32 (w.image_data + 28), .print .mustBe24] := by
      rw [format_error_run w file hargs himg hbpp n]
      simp [State.fail, header_trace]
    refine ⟨?_, ht, ?_⟩
    · rw [format_error_run w file hargs himg hbpp n]; rfl
    · intro e he
      rw [ht] at he
      simp only [List.mem_cons, List.mem_singleton, List.not_mem_nil, or_false] at he
      rcases he with h | h | h | h | h | h | h <;> subst h <;>
        simp [Event.isPixelAccess, Event.isDevice]
  · intro hbpp n
    exact no_format_error_of_24 w file hargs himg hbpp n

/-- Witness for `format_error_before_pixels`: a header announcing 16 bits per pixel
is rejected, and the 24-bit red BMP prints no format diagnostic. -/
theorem format_error_before_pixels_witness :
    2 ≤ depth16World.argument_count ∧
    depth16World.image
      = some depth16File ∧
    (main depth16World 3).ctl = .returned 1 ∧
    Diagnostic.mustBe24 ∉ diagnostics (main redWorld 3).trace :=
  ⟨by decide, rfl,
    ((format_error_before_pixels depth16World
      depth16File (by decide) rfl).2.1 (by decide) 3).1,
    (format_error_before_pixels redWorld red2x2 (by decide) rfl).2.2 (by decide) 3⟩

theorem pixelAccess_not_device (e : Event) (h : e.isPixelAccess = true) :
    e.isDevice = false ∧ e.diagnostic = none := by
  cases e <;> simp_all [Event.isPixelAccess, Event.isDevice, Event.diagnostic]

theorem extract_header_events (w : World) (file : List Nat) :
    ∀ e ∈ (extract w file (header w file)).trace, e.isDevice = false ∧ e.diagnostic = none := by
  obtain ⟨es, h1, h2⟩ := extract_trace w file (header w file)
  intro e he
  rw [h1, header_trace, List.mem_append, List.mem_append] at he
  rcases he with (he | he) | he
  · simp only [List.mem_cons, List.mem_singleton, List.not_mem_nil, or_false] at he
    rcases he with h | h | h | h | h | h <;> subst h <;> exact ⟨rfl, rfl⟩
  · simp only [List.mem_cons, List.mem_singleton, List.not_mem_nil, or_false] at he
    rcases he with h | h <;> subst h <;> exact ⟨rfl, rfl⟩
  · exact pixelAccess_not_device e (h2 e he)

theorem firstFailure_tooLarge (w : World) (file : List Nat) (info : fb_fix_screeninfo)
    (var : fb_var_screeninfo) (hargs : 2 ≤ w.argument_count) (himg : w.image = some file)
    (hbpp : bits_per_pixel (memory w file) w.image_data = 24) (hfb : w.fb_open = true)
    (hfix : w.framebuffer_info = some info) (hvar : w.display_info = some var) :
    firstFailure w = some .tooLarge ↔
      (width (memory w file) w.image_data > var.xres
        ∨ height (memory w file) w.image_data > var.yres) := by
  have h2 : ¬ w.argument_count < 2 := by omega
  simp only [firstFailure, h2, himg, hbpp, hfb, hfix, hvar]
  by_cases hsize : width (memory w file) w.image_data > var.xres
      ∨ height (memory w file) w.image_data > var.yres
  · simp [hsize]
  · simp only [hsize, if_false, iff_false]
    simp only [ne_eq, not_true_eq_false, if_false, Bool.true_eq_false]
    repeat' split
    all_goals simp

/-- C6: once the device is open and both queries have succeeded, the size check
fails (the run returns 1 having printed the size diagnostic, without mapping
the device) if and only if `width > xres` or `height > yres`; when
`width ≤ xres` and `height ≤ yres` the size diagnostic is not printed and the run
goes on to map `smem_len` bytes of the device at offset 0. -/
theorem size_validation (w : World) (file : List Nat) (info : fb_fix_screeninfo)
    (var : fb_var_screeninfo) (hargs : 2 ≤ w.argument_count) (himg : w.image = some file)
    (hbpp : bits_per_pixel (memory w file) w.image_data = 24) (hfb : w.fb_open = true)
    (hfix : w.framebuffer_info = some info) (hvar : w.display_info = some var) :
    (((start w).ctl = .returned 1 ∧ diagnostics (start w).trace = [.tooLarge]) ↔
      ((start w).width > var.xres ∨ (start w).height > var.yres)) ∧
    (((start w).width > var.xres ∨ (start w).height > var.yres) →
      Event.mmap info.smem_len 0 ∉ (start w).trace) ∧
    (((start w).width ≤ var.xres ∧ (start w).height ≤ var.yres) →
      Diagnostic.tooLarge ∉ diagnostics (start w).trace ∧
      Event.mmap info.smem_len 0 ∈ (start w).trace) := by
  have hW := start_width w file hargs himg
  have hH := start_height w file hargs himg
  have hff := firstFailure_tooLarge w file info var hargs himg hbpp hfb hfix hvar
  rw [hW, hH]
  refine ⟨?_, ?_, ?_⟩
  · constructor
    · rintro ⟨_, hd⟩
      rcases start_outcome w with ⟨_, d, _, hf, hd2⟩ | ⟨_, _, hd2, _⟩
      · rw [hd] at hd2
        injection hd2 with hd2
        rw [← hd2] at hf
        exact hff.mp hf
      · rw [hd] at hd2
        cases hd2
    · intro hsize
      have hf := hff.mpr hsize
      rcases start_outcome w with ⟨hc, d, _, hf2, hd2⟩ | ⟨_, _, _, ⟨_, hf2⟩ | ⟨_, hf2⟩⟩
      · rw [hf] at hf2
        injection hf2 with hf2
        rw [← hf2] at hd2
        exact ⟨hc, hd2⟩
      · rw [hf] at hf2
        cases hf2
      · rw [hf] at hf2
        cases hf2
  · intro hsize hmem
    have hev := extract_header_events w file
    rw [start_24 w file hargs himg hbpp] at hmem
    rcases device_cases w (extract w file (header w file)) with
      ⟨hfb2, _⟩ | ⟨_, hfix2, _⟩ | ⟨_, _, _, hvar2, _⟩ |
      ⟨_, _, _, _, _, _, h⟩ | ⟨i2, v2, _, _, hvar2, hs2, _⟩ |
      ⟨i2, v2, _, _, _, hvar2, hs2, _⟩
    · rw [hfb] at hfb2; cases hfb2
    · rw [hfix] at hfix2; cases hfix2
    · rw [hvar] at hvar2; cases hvar2
    · rw [h] at hmem
      simp only [State.fail, State.emit, List.mem_append, List.mem_cons, List.mem_singleton,
        List.not_mem_nil, or_false] at hmem
      rcases hmem with (hm | hm | hm | hm) | hm
      · have := (hev _ hm).1
        simp [Event.isDevice] at this
      all_goals cases hm
    · rw [hvar] at hvar2
      injection hvar2 with hvar2
      subst hvar2
      exact hs2 hsize
    · rw [hvar] at hvar2
      injection hvar2 with hvar2
      subst hvar2
      exact hs2 hsize
  · intro hfit
    have hns : ¬ (width (memory w file) w.image_data > var.xres
        ∨ height (memory w file) w.image_data > var.yres) := by omega
    constructor
    · intro hmem
      rcases start_outcome w with ⟨_, d, _, hf, hd⟩ | ⟨_, _, hd, _⟩
      · rw [hd, List.mem_singleton] at hmem
        rw [← hmem] at hf
        exact hns (hff.mp hf)
      · rw [hd] at hmem
        cases hmem
    · rw [start_24 w file hargs himg hbpp]
      rcases device_cases w (extract w file (header w file)) with
        ⟨hfb2, _⟩ | ⟨_, hfix2, _⟩ | ⟨_, _, _, hvar2, _⟩ |
        ⟨i2, v2, _, _, hvar2, hs2, _⟩ | ⟨i2, v2, _, hfix2, _, _, _, h⟩ |
        ⟨i2, v2, _, _, hfix2, _, _, _, h⟩
      · rw [hfb] at hfb2; cases hfb2
      · rw [hfix] at hfix2; cases hfix2
      · rw [hvar] at hvar2; cases hvar2
      · rw [hvar] at hvar2
        injection hvar2 with hvar2
        subst hvar2
        exact absurd hs2 hns
      · rw [hfix] at hfix2
        injection hfix2 with hfix2
        subst hfix2
        rw [h]
        simp [State.fail, State.emit]
      · rw [hfix] at hfix2
        injection hfix2 with hfix2
        subst hfix2
        rw [h]
        simp [State.emit]

/-- Witness for `size_validation`: the 2x2 image fits the 4x4 device and the run
maps its 64 bytes. -/
theorem size_validation_witness :
    2 ≤ redWorld.argument_count ∧ redWorld.image = some red2x2 ∧
    bits_per_pixel (memory redWorld red2x2) redWorld.image_data = 24 ∧
    redWorld.fb_open = true ∧ redWorld.framebuffer_info = some ⟨0, 64, 16⟩ ∧
    redWorld.display_info = some ⟨4, 4, 0⟩ ∧
    ((start redWorld).width ≤ 4 ∧ (start redWorld).height ≤ 4) ∧
    (Diagnostic.tooLarge ∉ diagnostics (start redWorld).trace ∧
      Event.mmap 64 0 ∈ (start redWorld).trace) :=
  ⟨by decide, rfl, by decide, rfl, rfl, rfl, by decide,
    (size_validation redWorld red2x2 ⟨0, 64, 16⟩ ⟨4, 4, 0⟩ (by decide) rfl (by decide) rfl rfl
      rfl).2.2 (by decide)⟩

/-- C10 (amended): the decoder makes no length check.  For every file buffer,
whatever its length, the run loads the 32-bit words at bytes 18, 22 and 28 from
the buffer address, and the format diagnostic is printed exactly when the word
at byte 28 differs from 24.  When the buffer is shorter than the field, that
word is what memory holds after the buffer: for a buffer of at most 28 bytes it
is the heap word at `image_data + 28`, and for one of at most 18 bytes width
and height are heap words as well. -/
theorem header_read_without_length_check (w : World) (file : List Nat)
    (hargs : 2 ≤ w.argument_count) (himg : w.image = some file) (n : Nat) :
    (Event.load32 (w.image_data + 18) ∈ (main w n).trace ∧
      Event.load32 (w.image_data + 22) ∈ (main w n).trace ∧
      Event.load32 (w.image_data + 28) ∈ (main w n).trace) ∧
    (Diagnostic.mustBe24 ∈ diagnostics (main w n).trace ↔
      bits_per_pixel (memory w file) w.image_data ≠ 24) ∧
    (file.length ≤ 28 →
      bits_per_pixel (memory w file) w.image_data = load32 w.heap (w.image_data + 28)) ∧
    (file.length ≤ 18 → (start w).width = load32 w.heap (w.image_data + 18) ∧
      (start w).height = load32 w.heap (w.image_data + 22)) := by
  obtain ⟨es, h⟩ := main_trace_extends w n
  obtain ⟨fs, g⟩ := start_trace_header w file hargs himg
  refine ⟨?_, ?_, ?_, ?_⟩
  · rw [h, g, header_trace]
    simp
  · constructor
    · intro hmem hbpp
      exact no_format_error_of_24 w file hargs himg hbpp n hmem
    · intro hbpp
      rw [format_error_run w file hargs himg hbpp n, diagnostics_fail, diagnostics_header]
      simp
  · intro hlen
    exact load32_heap w file _ (by omega)
  · intro hlen
    rw [start_width w file hargs himg, start_height w file hargs himg]
    exact ⟨load32_heap w file _ (by omega), load32_heap w file _ (by omega)⟩

/-- Witness for `header_read_without_length_check`: the 2-byte file. -/
theorem header_read_without_length_check_witness :
    2 ≤ shortWorld.argument_count ∧ shortWorld.image = some shortFile ∧
    ((Event.load32 (shortWorld.image_data + 18) ∈ (main shortWorld 1).trace ∧
      Event.load32 (shortWorld.image_data + 22) ∈ (main shortWorld 1).trace ∧
      Event.load32 (shortWorld.image_data + 28) ∈ (main shortWorld 1).trace) ∧
    (Diagnostic.mustBe24 ∈ diagnostics (main shortWorld 1).trace ↔
      bits_per_pixel (memory shortWorld shortFile) shortWorld.image_data ≠ 24) ∧
    (shortFile.length ≤ 28 →
      bits_per_pixel (memory shortWorld shortFile) shortWorld.image_data
        = load32 shortWorld.heap (shortWorld.image_data + 28)) ∧
    (shortFile.length ≤ 18 →
      (start shortWorld).width = load32 shortWorld.heap (shortWorld.image_data + 18) ∧
      (start shortWorld).height = load32 shortWorld.heap (shortWorld.image_data + 22))) :=
  ⟨by decide, rfl, header_read_without_length_check shortWorld shortFile (by decide) rfl 1⟩

/-- C10 fails as stated: a 2-byte file, loaded where the memory after the buffer
holds 24 at `image_data + 28`.  The run prints no format diagnostic and ends up
in the display loop; the header words at bytes 18, 22 and 28 were loaded, all
of them past the end of the 2-byte buffer. -/
theorem short_file_is_not_rejected :
    shortFile.length < 32 ∧
    Diagnostic.mustBe24 ∉ diagnostics (main shortWorld 1).trace ∧
    (main shortWorld 1).ctl = .spin ∧
    Event.load32 (shortWorld.image_data + 18) ∈ (main shortWorld 1).trace ∧
    Event.load32 (shortWorld.image_data + 22) ∈ (main shortWorld 1).trace ∧
    Event.load32 (shortWorld.image_data + 28) ∈ (main shortWorld 1).trace ∧
    shortWorld.image_data + shortFile.length ≤ shortWorld.image_data + 18 := by
  decide

/-! ## The first frame -/

/-- C7 (code defect): the 2x2 all-red BMP with pixel offset 54 on the 4x4 device with
16 bytes per row, loaded at the 4-byte aligned address 4096.  After the first
frame the words at offsets 16 and 20 are the packed red value `0xFF00FF00`, but
the words at offsets 0 and 4 are `0xFF000000` and `0xFF0000FF`: device row 0 shows
the second stored row, which the converter read from file byte 60 instead of 62. -/
theorem red_frame_words :
    red2x2.length = 70 ∧ fileU32 red2x2 10 = 54 ∧ fileU32 red2x2 18 = 2 ∧
    fileU32 red2x2 22 = 2 ∧ fileU32 red2x2 28 = 24 ∧ redWorld.image_data % 4 = 0 ∧
    pack 0 0 255 = 0xFF00FF00 ∧
    load32 (main redWorld 1).framebuffer 0 = 0xFF000000 ∧
    load32 (main redWorld 1).framebuffer 4 = 0xFF0000FF ∧
    load32 (main redWorld 1).framebuffer 16 = 0xFF00FF00 ∧
    load32 (main redWorld 1).framebuffer 20 = 0xFF00FF00 ∧
    (∀ a, a < 64 → a ∉ [0, 1, 2, 3, 4, 5, 6, 7, 16, 17, 18, 19, 20, 21, 22, 23] →
      (main redWorld 1).framebuffer a = 0) := by
  decide

theorem start_width_lt (w : World) : (start w).width < 2 ^ 32 := by
  by_cases hargs : w.argument_count < 2
  · rw [start_usage w hargs]
    exact Nat.two_pow_pos 32
  · cases himg : w.image with
    | none =>
      rw [start_noImage w (by omega) himg]
      exact Nat.two_pow_pos 32
    | some file =>
      rw [start_width w file (by omega) himg]
      exact load32_lt _ _

theorem byte_of_word (v i : Nat) (hi : i < 4) :
    v % 2 ^ 32 / 2 ^ (8 * i) % 256 = v / 2 ^ (8 * i) % 256 := by
  interval_cases i <;> first | (norm_num; done) | (norm_num; omega)

/-- C8: after the first pass of the display loop (and at every later step), for
every `x < width` and `y < height` the 4 bytes of the mapping at byte offset
`smem_start + x * 4 + y * line_length` hold, in little-endian order, the pixel
buffer entry `(height - 1 - y) * width + x`, provided `line_length ≥ 4 * width`
and every `y * line_length` with `y < height` fits 32 bits. -/
theorem blit_postcondition (w : World) (hloop : (start w).ctl = .loop)
    (hL : 4 * (start w).width ≤ (start w).info.line_length)
    (h32 : ∀ y, y < (start w).height → y * (start w).info.line_length < 2 ^ 32)
    (n x y i : Nat) (hx : x < (start w).width) (hy : y < (start w).height) (hi : i < 4) :
    (main w (n + 1)).framebuffer
        ((start w).info.smem_start + x * 4 + y * (start w).info.line_length + i)
      = (start w).pixels (((start w).height - 1 - y) * (start w).width + x)
          / 2 ^ (8 * i) % 256 := by
  rw [main_of_loop w hloop, step_framebuffer w _ hloop]
  unfold frame
  have hw := start_width_lt w
  rw [blit_framebuffer _ _ _ _ _ _ hw hL h32 y x i hy hx hi]
  have hidx : ((start w).height - 1 - y) * (start w).width + x < 2 ^ 32 ∧
      ((start w).height - 1 - y) * (start w).width < 2 ^ 32 := by
    by_cases hm : (start w).height - 1 - y = 0
    · rw [hm]
      omega
    · have hlast := h32 ((start w).height - 1) (by omega)
      have h1 : ((start w).height - 1 - y) * (start w).width
          ≤ ((start w).height - 1) * (start w).width :=
        Nat.mul_le_mul_right _ (by omega)
      have h2 : ((start w).height - 1) * (4 * (start w).width)
          ≤ ((start w).height - 1) * (start w).info.line_length :=
        Nat.mul_le_mul_left _ hL
      have h3 : ((start w).height - 1) * (4 * (start w).width)
          = 4 * (((start w).height - 1) * (start w).width) := by ring
      have h4 : (start w).width ≤ ((start w).height - 1 - y) * (start w).width :=
        Nat.le_mul_of_pos_left _ (by omega)
      omega
  unfold blitWord
  rw [Nat.mod_eq_of_lt hidx.2, Nat.mod_eq_of_lt hidx.1, byte_of_word _ _ hi]

/-- Witness for `blit_postcondition`: the red BMP on the 4x4 device, byte 1 of the
word at `(x, y) = (1, 0)`. -/
theorem blit_postcondition_witness :
    (start redWorld).ctl = .loop ∧
    4 * (start redWorld).width ≤ (start redWorld).info.line_length ∧
    (∀ y, y < (start redWorld).height → y * (start redWorld).info.line_length < 2 ^ 32) ∧
    1 < (start redWorld).width ∧ 0 < (start redWorld).height ∧ 1 < 4 ∧
    (main redWorld (0 + 1)).framebuffer
        ((start redWorld).info.smem_start + 1 * 4 + 0 * (start redWorld).info.line_length + 1)
      = (start redWorld).pixels (((start redWorld).height - 1 - 0) * (start redWorld).width + 1)
          / 2 ^ (8 * 1) % 256 :=
  ⟨by decide, by decide, by decide, by decide, by decide, by decide,
    blit_postcondition redWorld (by decide) (by decide) (by decide) 0 1 0 1 (by decide)
      (by decide) (by decide)⟩

/-! ## The traces of the loops, exactly -/

theorem convertPixels_trace_eq (mem : Memory) (width y : Nat) (s : Conv) (n : Nat) :
    (forLoop (convertPixel mem width y) s n).trace
      = s.trace ++ (List.range n).flatMap (pixelEvents mem width y s.pixel) := by
  induction n with
  | zero => simp [forLoop]
  | succ n ih =>
    rw [forLoop_succ, List.range_succ, List.flatMap_append]
    simp only [convertPixel, ih, convertPixels_pixel, List.flatMap_cons, List.flatMap_nil,
      List.append_nil, pixelEvents, packAt, List.append_assoc]

theorem convert_trace_eq (mem : Memory) (width : Nat) (s : Conv) (k : Nat) :
    (convert mem width s k).trace = s.trace ++ convertEvents mem width s k := by
  induction k with
  | zero => simp [convert, forLoop, convertEvents]
  | succ k ih =>
    rw [convert_succ]
    have h : (convertRow mem width k (convert mem width s k)).trace
        = (forLoop (convertPixel mem width k) (convert mem width s k) width).trace := rfl
    rw [h, convertPixels_trace_eq, ih]
    simp only [convertEvents, List.range_succ, List.flatMap_append, List.flatMap_cons,
      List.flatMap_nil, List.append_nil, List.append_assoc]

theorem blitPixels_trace_eq (info : fb_fix_screeninfo) (pixels : Nat → Nat)
    (width height y : Nat) (s : Blit) (n : Nat) :
    (forLoop (blitPixel info pixels width height y) s n).trace
      = s.trace ++ (List.range n).map fun x =>
          Event.memcpy (framebuffer_pixel_offset info x y) (blitWord pixels width height y x) := by
  induction n with
  | zero => simp [forLoop]
  | succ n ih =>
    rw [forLoop_succ, List.range_succ, List.map_append]
    simp only [blitPixel, ih, blitWord, List.map_cons, List.map_nil, List.append_assoc]

theorem blit_trace_eq (info : fb_fix_screeninfo) (pixels : Nat → Nat) (width height : Nat)
    (s : Blit) (k : Nat) :
    (blit info pixels width height s k).trace
      = s.trace ++ copyEvents info pixels width height k := by
  induction k with
  | zero => simp [blit, forLoop, copyEvents]
  | succ k ih =>
    rw [blit_succ, blitPixels_trace_eq, ih]
    simp only [copyEvents, List.range_succ, List.flatMap_append, List.flatMap_cons,
      List.flatMap_nil, List.append_nil, List.append_assoc]

theorem frame_trace_eq (s : State) :
    (frame s).trace = s.trace ++ [.memset s.info.smem_start s.info.smem_len]
      ++ copyEvents s.info s.pixels s.width s.height s.height := by
  unfold frame
  rw [blit_trace_eq]

theorem copyEvents_length (info : fb_fix_screeninfo) (pixels : Nat → Nat)
    (width height k : Nat) : (copyEvents info pixels width height k).length = k * width := by
  induction k with
  | zero => simp [copyEvents]
  | succ k ih =>
    have e : copyEvents info pixels width height (k + 1)
        = copyEvents info pixels width height k ++ (List.range width).map fun x =>
            Event.memcpy (framebuffer_pixel_offset info x k)
              (blitWord pixels width height k x) := by
      simp only [copyEvents, List.range_succ, List.flatMap_append, List.flatMap_cons,
        List.flatMap_nil, List.append_nil]
    rw [e, List.length_append, ih, List.length_map, List.length_range, Nat.succ_mul]

theorem mem_copyEvents (info : fb_fix_screeninfo) (pixels : Nat → Nat)
    (width height k : Nat) (e : Event) :
    e ∈ copyEvents info pixels width height k ↔
      ∃ y x, y < k ∧ x < width ∧
        e = .memcpy (framebuffer_pixel_offset info x y) (blitWord pixels width height y x) := by
  simp only [copyEvents, List.mem_flatMap, List.mem_map, List.mem_range]
  constructor
  · rintro ⟨y, hy, x, hx, rfl⟩
    exact ⟨y, x, hy, hx, rfl⟩
  · rintro ⟨y, x, hy, hx, rfl⟩
    exact ⟨y, hy, x, hx, rfl⟩

theorem mem_convertEvents (mem : Memory) (width : Nat) (s : Conv) (k : Nat) (e : Event) :
    e ∈ convertEvents mem width s k ↔
      ∃ y x, y < k ∧ x < width ∧ e ∈ pixelEvents mem width y (convert mem width s y).pixel x := by
  simp only [convertEvents, List.mem_flatMap, List.mem_range]
  constructor
  · rintro ⟨y, hy, x, hx, h⟩
    exact ⟨y, x, hy, hx, h⟩
  · rintro ⟨y, x, hy, hx, h⟩
    exact ⟨y, hy, x, hx, h⟩

/-- A run that is at the head of the display loop after lines 9 to 117 has passed
every check, and its state and trace are known. -/
theorem start_loop (w : World) (h : (start w).ctl = .loop) :
    ∃ file info var m, 2 ≤ w.argument_count ∧ w.image = some file ∧
      bits_per_pixel (memory w file) w.image_data = 24 ∧ w.fb_open = true ∧
      w.framebuffer_info = some info ∧ w.display_info = some var ∧
      width (memory w file) w.image_data ≤ var.xres ∧
      height (memory w file) w.image_data ≤ var.yres ∧ w.mapped = some m ∧
      start w = { (extract w file (header w file)).emit
          [.openFramebuffer, .getFixInfo, .getVarInfo, .mmap info.smem_len 0]
        with info := info, framebuffer := m, activate := var.activate, activated := 0 } := by
  by_cases hargs : w.argument_count < 2
  · rw [start_usage w hargs] at h
    cases h
  have h2 : 2 ≤ w.argument_count := by omega
  cases himg : w.image with
  | none =>
    rw [start_noImage w h2 himg] at h
    cases h
  | some file =>
    by_cases hbpp : bits_per_pixel (memory w file) w.image_data = 24
    · rw [start_24 w file h2 himg hbpp] at h ⊢
      rcases device_cases w (extract w file (header w file)) with
        ⟨_, e⟩ | ⟨_, _, e⟩ | ⟨_, _, _, _, e⟩ | ⟨_, _, _, _, _, _, e⟩ |
        ⟨_, _, _, _, _, _, _, e⟩ | ⟨info, var, m, hfb, hfix, hvar, hsize, hmap, e⟩
      · rw [e] at h; cases h
      · rw [e] at h; cases h
      · rw [e] at h; cases h
      · rw [e] at h; cases h
      · rw [e] at h; cases h
      · have hs : ¬ (width (memory w file) w.image_data > var.xres
            ∨ height (memory w file) w.image_data > var.yres) := hsize
        exact ⟨file, info, var, m, h2, rfl, hbpp, hfb, hfix, hvar, by omega, by omega, hmap, e⟩
    · rw [start_not24 w file h2 himg hbpp] at h
      cases h

/-! ## The trace of a whole run -/

theorem extract_eq_convert (w : World) (file : List Nat) :
    (extract w file (header w file)).trace
      = (convert (memory w file) (width (memory w file) w.image_data) (conversionStart w file)
          (height (memory w file) w.image_data)).trace ∧
    (extract w file (header w file)).pixels
      = (convert (memory w file) (width (memory w file) w.image_data) (conversionStart w file)
          (height (memory w file) w.image_data)).pixels :=
  ⟨rfl, rfl⟩

theorem device_event_kinds (e : Event) (h : e.isDevice = false) :
    e.isCommit = false ∧ e.isClear = false ∧ e.isCopy = false := by
  cases e <;> simp_all [Event.isDevice, Event.isCommit, Event.isClear, Event.isCopy]

/-- What lines 69 to 117 add to the trace: device calls that are neither a
clear, nor a copy, nor a commit, and possibly a diagnostic. -/
theorem device_trace_events (w : World) (s : State) :
    ∃ es, (device w s).trace = s.trace ++ es ∧
      ∀ e ∈ es, e.isPixelAccess = false ∧ e.storeIndex = none ∧ e.isCommit = false ∧
        e.isClear = false ∧ e.isCopy = false ∧ (∀ n, e ≠ .allocPixels n) := by
  rcases device_cases w s with ⟨_, h⟩ | ⟨_, _, h⟩ | ⟨_, _, _, _, h⟩ | ⟨_, _, _, _, _, _, h⟩ |
    ⟨_, _, _, _, _, _, _, h⟩ | ⟨_, _, _, _, _, _, _, _, h⟩ <;> rw [h] <;>
    simp only [State.fail, State.emit, List.append_assoc] <;>
    refine ⟨_, rfl, ?_⟩ <;> intro e he <;>
    simp only [List.mem_append, List.mem_cons, List.mem_singleton, List.not_mem_nil,
      or_false] at he <;>
    casesm* _ ∨ _ <;> subst_vars <;>
    simp [Event.isPixelAccess, Event.storeIndex, Event.isCommit, Event.isClear, Event.isCopy]

/-- The trace of lines 9 to 117 when the format check passes. -/
theorem start_trace_24 (w : World) (file : List Nat) (hargs : 2 ≤ w.argument_count)
    (himg : w.image = some file) (hbpp : bits_per_pixel (memory w file) w.image_data = 24) :
    ∃ es, (start w).trace = (conversionStart w file).trace ++
        convertEvents (memory w file) (width (memory w file) w.image_data)
          (conversionStart w file) (height (memory w file) w.image_data) ++ es ∧
      ∀ e ∈ es, e.isPixelAccess = false ∧ e.storeIndex = none ∧ e.isCommit = false ∧
        e.isClear = false ∧ e.isCopy = false ∧ (∀ n, e ≠ .allocPixels n) := by
  obtain ⟨es, h1, h2⟩ := device_trace_events w (extract w file (header w file))
  refine ⟨es, ?_, h2⟩
  rw [start_24 w file hargs himg hbpp, h1, (extract_eq_convert w file).1, convert_trace_eq]

theorem pixelEvents_kinds (mem : Memory) (width y p x : Nat) (e : Event)
    (h : e ∈ pixelEvents mem width y p x) :
    e.isCommit = false ∧ e.isClear = false ∧ e.isCopy = false ∧ e.isDevice = false := by
  simp only [pixelEvents, List.mem_cons, List.mem_singleton, List.not_mem_nil, or_false] at h
  rcases h with h | h | h | h <;> subst h <;>
    simp [Event.isCommit, Event.isClear, Event.isCopy, Event.isDevice]

/-- Lines 9 to 117 neither clear, nor copy, nor commit. -/
theorem start_trace_kinds (w : World) (e : Event) (he : e ∈ (start w).trace) :
    e.isCommit = false ∧ e.isClear = false ∧ e.isCopy = false := by
  by_cases hargs : w.argument_count < 2
  · rw [start_usage w hargs] at he
    simp only [State.fail, State.entry, List.nil_append, List.mem_singleton] at he
    subst he
    simp [Event.isCommit, Event.isClear, Event.isCopy]
  have h2 : 2 ≤ w.argument_count := by omega
  cases himg : w.image with
  | none =>
    rw [start_noImage w h2 himg] at he
    simp only [State.fail, State.emit, State.entry, List.nil_append, List.mem_append,
      List.mem_singleton] at he
    rcases he with he | he <;> subst he <;> simp [Event.isCommit, Event.isClear, Event.isCopy]
  | some file =>
    by_cases hbpp : bits_per_pixel (memory w file) w.image_data = 24
    · obtain ⟨es, h1, h3⟩ := start_trace_24 w file h2 himg hbpp
      rw [h1, List.mem_append, List.mem_append] at he
      rcases he with (he | he) | he
      · have := extract_header_events w file e (by
          obtain ⟨fs, g, _⟩ := extract_trace w file (header w file)
          rw [g]
          exact List.mem_append_left _ he)
        exact device_event_kinds e this.1
      · obtain ⟨y, x, _, _, hm⟩ := (mem_convertEvents _ _ _ _ e).mp he
        have := pixelEvents_kinds _ _ _ _ _ e hm
        exact ⟨this.1, this.2.1, this.2.2.1⟩
      · have := h3 e he
        exact ⟨this.2.2.1, this.2.2.2.1, this.2.2.2.2.1⟩
    · rw [start_not24 w file h2 himg hbpp] at he
      have hd := extract_header_events w file
      simp only [State.fail, List.mem_append, List.mem_singleton] at he
      rcases he with he | he
      · have : e ∈ (extract w file (header w file)).trace := by
          obtain ⟨fs, g, _⟩ := extract_trace w file (header w file)
          rw [g]
          exact List.mem_append_left _ (List.mem_append_left _ he)
        exact device_event_kinds e (hd e this).1
      · subst he
        simp [Event.isCommit, Event.isClear, Event.isCopy]

theorem start_activated (w : World) : (start w).activated = 0 := by
  by_cases hargs : w.argument_count < 2
  · rw [start_usage w hargs]; rfl
  cases himg : w.image with
  | none => rw [start_noImage w (by omega) himg]; rfl
  | some file =>
    by_cases hbpp : bits_per_pixel (memory w file) w.image_data = 24
    · rw [start_24 w file (by omega) himg hbpp]
      exact device_activated w _ rfl
    · rw [start_not24 w file (by omega) himg hbpp]; rfl

/-- The trace of a run that reached the display loop, at every step after the
first: the trace of lines 9 to 117, one clear, one copy per pixel, one commit,
and the commit diagnostic if the commit failed. -/
theorem main_trace_loop (w : World) (h : (start w).ctl = .loop) (n : Nat) :
    (main w (n + 1)).trace = (start w).trace
      ++ [.memset (start w).info.smem_start (start w).info.smem_len]
      ++ copyEvents (start w).info (start w).pixels (start w).width (start w).height
          (start w).height
      ++ [.putVarInfo ((start w).activate ||| (w.FB_ACTIVATE_NOW ||| w.FB_ACTIVATE_FORCE))]
      ++ (if w.put_ok = false then [.print .updateFailed] else []) := by
  rw [main_of_loop w h]
  cases hp : w.put_ok with
  | false =>
    rw [(step_put_failed w (start w) h (start_activated w) hp).2, frame_trace_eq]
    simp
  | true =>
    rw [(step_put_ok w (start w) h (start_activated w) hp).2, frame_trace_eq]
    simp

/-! ## The pixel buffer -/

theorem packAt_eq (mem : Memory) (p : Nat) :
    packAt mem p = 0xFF * 2 ^ 24 + load8 mem p * 2 ^ 16 + load8 mem (p + 2) * 2 ^ 8
      + load8 mem (p + 1) := by
  rw [packAt, pack_eq _ _ _ (load8_lt _ _) (load8_lt _ _) (load8_lt _ _)]
  norm_num

theorem start_alloc (w : World) (file : List Nat) (hargs : 2 ≤ w.argument_count)
    (himg : w.image = some file) (hbpp : bits_per_pixel (memory w file) w.image_data = 24) :
    Event.allocPixels (width (memory w file) w.image_data
      * height (memory w file) w.image_data % 2 ^ 32 * 4) ∈ (start w).trace := by
  obtain ⟨es, h1, _⟩ := start_trace_24 w file hargs himg hbpp
  rw [h1]
  simp [conversionStart]

theorem start_store_events (w : World) (file : List Nat) (hargs : 2 ≤ w.argument_count)
    (himg : w.image = some file) (hbpp : bits_per_pixel (memory w file) w.image_data = 24)
    (i v : Nat) (h : Event.storePixel i v ∈ (start w).trace) :
    ∃ y x, y < height (memory w file) w.image_data ∧ x < width (memory w file) w.image_data ∧
      i = pixelIndex (width (memory w file) w.image_data) x y ∧
      v = packAt (memory w file)
        ((convert (memory w file) (width (memory w file) w.image_data)
          (conversionStart w file) y).pixel + 3 * x) := by
  obtain ⟨es, h1, h2⟩ := start_trace_24 w file hargs himg hbpp
  rw [h1, List.mem_append, List.mem_append] at h
  rcases h with (h | h) | h
  · simp [conversionStart, header_trace] at h
  · obtain ⟨y, x, hy, hx, hm⟩ := (mem_convertEvents _ _ _ _ _).mp h
    simp only [pixelEvents, List.mem_cons, List.mem_singleton, List.not_mem_nil,
      or_false] at hm
    rcases hm with hm | hm | hm | hm
    · cases hm
    · cases hm
    · cases hm
    · injection hm with h1 h2
      exact ⟨y, x, hy, hx, h1, h2⟩
  · have := (h2 _ h).1
    simp [Event.isPixelAccess] at this

/-- C11 (amended): the pixel buffer is allocated with `width * height mod 2 ^ 32`
entries of 4 bytes (exactly `width * height` entries when the product is below
`2 ^ 32`), and every entry the converter stores is, for the source bytes
`(b, g, r)` it loaded, the word `0xFF * 2 ^ 24 + b * 2 ^ 16 + r * 2 ^ 8 + g`: alpha
in bits 24..31, blue in bits 16..23, red in bits 8..15, green in bits 0..7.
When the pixel data start at a 4-byte aligned address and `width * height` is
below `2 ^ 32`, the index `y * width + x` lies inside the allocation and the
entry there is that word for pixel `x` of stored row `y`. -/
theorem buffer_entries_packed (w : World) (file : List Nat) (hargs : 2 ≤ w.argument_count)
    (himg : w.image = some file) (hbpp : bits_per_pixel (memory w file) w.image_data = 24) :
    Event.allocPixels ((start w).width * (start w).height % 2 ^ 32 * 4) ∈ (start w).trace ∧
    ((start w).width * (start w).height < 2 ^ 32 →
      Event.allocPixels ((start w).width * (start w).height * 4) ∈ (start w).trace) ∧
    (∀ i v, Event.storePixel i v ∈ (start w).trace →
      ∃ p, Event.load8 p ∈ (start w).trace ∧ Event.load8 (p + 1) ∈ (start w).trace ∧
        Event.load8 (p + 2) ∈ (start w).trace ∧
        v = 0xFF * 2 ^ 24 + load8 (memory w file) p * 2 ^ 16
          + load8 (memory w file) (p + 2) * 2 ^ 8 + load8 (memory w file) (p + 1)) ∧
    (pixel (memory w file) w.image_data % 4 = 0 →
      pixel (memory w file) w.image_data
        + (start w).height * paddedRowBytes (start w).width + 3 < 2 ^ 64 →
      (start w).height * (start w).width < 2 ^ 32 →
      ∀ x y, x < (start w).width → y < (start w).height →
        y * (start w).width + x < (start w).width * (start w).height % 2 ^ 32 ∧
        (start w).pixels (y * (start w).width + x)
          = 0xFF * 2 ^ 24
            + load8 (memory w file)
                (pixel (memory w file) w.image_data + y * paddedRowBytes (start w).width
                  + 3 * x) * 2 ^ 16
            + load8 (memory w file)
                (pixel (memory w file) w.image_data + y * paddedRowBytes (start w).width
                  + 3 * x + 2) * 2 ^ 8
            + load8 (memory w file)
                (pixel (memory w file) w.image_data + y * paddedRowBytes (start w).width
                  + 3 * x + 1)) := by
  have hW := start_width w file hargs himg
  have hH := start_height w file hargs himg
  rw [hW, hH]
  have ha := start_alloc w file hargs himg hbpp
  refine ⟨ha, ?_, ?_, ?_⟩
  · intro hlt
    rw [Nat.mod_eq_of_lt hlt] at ha
    exact ha
  · intro i v hs
    obtain ⟨y, x, hy, hx, _, hv⟩ := start_store_events w file hargs himg hbpp i v hs
    obtain ⟨es, h1, _⟩ := start_trace_24 w file hargs himg hbpp
    have hin : ∀ e, e ∈ pixelEvents (memory w file) (width (memory w file) w.image_data) y
        (convert (memory w file) (width (memory w file) w.image_data)
          (conversionStart w file) y).pixel x → e ∈ (start w).trace := by
      intro e he
      rw [h1]
      exact List.mem_append_left _ (List.mem_append_right _
        ((mem_convertEvents _ _ _ _ e).mpr ⟨y, x, hy, hx, he⟩))
    refine ⟨(convert (memory w file) (width (memory w file) w.image_data)
      (conversionStart w file) y).pixel + 3 * x, hin _ (by simp [pixelEvents]),
      hin _ (by simp [pixelEvents]), hin _ (by simp [pixelEvents]), ?_⟩
    rw [hv, packAt_eq]
  · intro h4 hb hk x y hx hy
    constructor
    · rw [Nat.mul_comm (width (memory w file) w.image_data), Nat.mod_eq_of_lt hk]
      have h1 : y + 1 ≤ height (memory w file) w.image_data := hy
      have h2 := Nat.mul_le_mul_right (width (memory w file) w.image_data) h1
      rw [Nat.succ_mul] at h2
      omega
    · rw [start_pixels w file hargs himg hbpp,
        (convert_pixels_aligned (memory w file) _ _ _ h4 hb (Nat.le_of_lt hk)).1 y x hy hx,
        packAt_eq]

/-- Witness for `buffer_entries_packed`: the red BMP, whose first pixel has the
bytes `(0, 0, 255)` and is stored as `0xFF00FF00`; and the 1x2 image with aligned
pixel data, whose entry 1 lies inside the 2-entry allocation and holds the word
of the pixel `(4, 5, 6)`. -/
theorem buffer_entries_packed_witness :
    2 ≤ redWorld.argument_count ∧ redWorld.image = some red2x2 ∧
    bits_per_pixel (memory redWorld red2x2) redWorld.image_data = 24 ∧
    Event.storePixel 0 0xFF00FF00 ∈ (start redWorld).trace ∧
    (∃ p, Event.load8 p ∈ (start redWorld).trace ∧ Event.load8 (p + 1) ∈ (start redWorld).trace ∧
        Event.load8 (p + 2) ∈ (start redWorld).trace ∧
        0xFF00FF00 = 0xFF * 2 ^ 24 + load8 (memory redWorld red2x2) p * 2 ^ 16
          + load8 (memory redWorld red2x2) (p + 2) * 2 ^ 8
          + load8 (memory redWorld red2x2) (p + 1)) ∧
    2 ≤ twoRowsWorld.argument_count ∧ twoRowsWorld.image = some twoRows ∧
    bits_per_pixel (memory twoRowsWorld twoRows) twoRowsWorld.image_data = 24 ∧
    pixel (memory twoRowsWorld twoRows) twoRowsWorld.image_data % 4 = 0 ∧
    pixel (memory twoRowsWorld twoRows) twoRowsWorld.image_data
      + (start twoRowsWorld).height * paddedRowBytes (start twoRowsWorld).width + 3 < 2 ^ 64 ∧
    (start twoRowsWorld).height * (start twoRowsWorld).width < 2 ^ 32 ∧
    0 < (start twoRowsWorld).width ∧ 1 < (start twoRowsWorld).height ∧
    (1 * (start twoRowsWorld).width + 0
        < (start twoRowsWorld).width * (start twoRowsWorld).height % 2 ^ 32 ∧
      (start twoRowsWorld).pixels (1 * (start twoRowsWorld).width + 0)
        = 0xFF * 2 ^ 24
          + load8 (memory twoRowsWorld twoRows)
              (pixel (memory twoRowsWorld twoRows) twoRowsWorld.image_data
                + 1 * paddedRowBytes (start twoRowsWorld).width + 3 * 0) * 2 ^ 16
          + load8 (memory twoRowsWorld twoRows)
              (pixel (memory twoRowsWorld twoRows) twoRowsWorld.image_data
                + 1 * paddedRowBytes (start twoRowsWorld).width + 3 * 0 + 2) * 2 ^ 8
          + load8 (memory twoRowsWorld twoRows)
              (pixel (memory twoRowsWorld twoRows) twoRowsWorld.image_data
                + 1 * paddedRowBytes (start twoRowsWorld).width + 3 * 0 + 1)) :=
  ⟨by decide, rfl, by decide, by decide,
    (buffer_entries_packed redWorld red2x2 (by decide) rfl (by decide)).2.2.1 0 0xFF00FF00
      (by decide),
    by decide, rfl, by decide, by decide, by decide, by decide, by decide, by decide,
    (buffer_entries_packed twoRowsWorld twoRows (by decide) rfl (by decide)).2.2.2 (by decide)
      (by decide) (by decide) 0 1 (by decide) (by decide)⟩

/-- C11 fails as stated: the first pixel of the red BMP has the source bytes
`(b, g, r) = (0, 0, 255)`; its entry is `0xFF00FF00` (red in bits 8..15), not the
ARGB word `0xFFFF0000`.  And for a header announcing 65536 x 65536 pixels the
product is `2 ^ 32` while the buffer is allocated with 0 bytes. -/
theorem buffer_entry_is_not_argb :
    load8 (memory redWorld red2x2) (redWorld.image_data + 54) = 0 ∧
    load8 (memory redWorld red2x2) (redWorld.image_data + 55) = 0 ∧
    load8 (memory redWorld red2x2) (redWorld.image_data + 56) = 255 ∧
    (start redWorld).pixels 0 = 0xFF00FF00 ∧
    0xFF * 2 ^ 24 + 255 * 2 ^ 16 + 0 * 2 ^ 8 + 0 = 0xFFFF0000 ∧
    (start redWorld).pixels 0 ≠ 0xFF * 2 ^ 24 + 255 * 2 ^ 16 + 0 * 2 ^ 8 + 0 ∧
    width (memory hugeWorld hugeFile) hugeWorld.image_data
      * height (memory hugeWorld hugeFile) hugeWorld.image_data = 2 ^ 32 ∧
    Event.allocPixels 0 ∈ (start hugeWorld).trace := by
  refine ⟨by decide, by decide, by decide, by decide, by decide, by decide, by decide, ?_⟩
  have h := start_alloc hugeWorld hugeFile (by decide) rfl (by decide)
  have e : width (memory hugeWorld hugeFile) hugeWorld.image_data
      * height (memory hugeWorld hugeFile) hugeWorld.image_data % 2 ^ 32 * 4 = 0 := by decide
  rw [e] at h
  exact h


theorem storeIndex_convertEvents (mem : Memory) (width : Nat) (s : Conv) (k : Nat) :
    (convertEvents mem width s k).filterMap Event.storeIndex
      = (List.range k).flatMap fun y => (List.range width).map fun x => pixelIndex width x y := by
  have row : ∀ (y p n : Nat),
      ((List.range n).flatMap (pixelEvents mem width y p)).filterMap Event.storeIndex
        = (List.range n).map fun x => pixelIndex width x y := by
    intro y p n
    induction n with
    | zero => rfl
    | succ n ih =>
      rw [List.range_succ, List.flatMap_append, List.filterMap_append, ih, List.map_append]
      rfl
  induction k with
  | zero => rfl
  | succ k ih =>
    have e : convertEvents mem width s (k + 1) = convertEvents mem width s k ++
        (List.range width).flatMap (pixelEvents mem width k (convert mem width s k).pixel) := by
      simp only [convertEvents, List.range_succ, List.flatMap_append, List.flatMap_cons,
        List.flatMap_nil, List.append_nil]
    rw [e, List.filterMap_append, ih, row, List.range_succ, List.flatMap_append]
    simp only [List.flatMap_cons, List.flatMap_nil, List.append_nil]

theorem pixelIndex_eq (width x y : Nat) (h : x + y * width < 2 ^ 32) :
    pixelIndex width x y = x + y * width := by
  unfold pixelIndex
  rw [Nat.mod_eq_of_lt (by omega : y * width < 2 ^ 32), Nat.mod_eq_of_lt h]

theorem pixelIndex_rows (width k : Nat) (hk : k * width ≤ 2 ^ 32) :
    ((List.range k).flatMap fun y => (List.range width).map fun x => pixelIndex width x y)
      = List.range (k * width) := by
  induction k with
  | zero => simp
  | succ k ih =>
    have e2 : (k + 1) * width = k * width + width := Nat.succ_mul _ _
    rw [List.range_succ, List.flatMap_append, ih (by omega), e2, List.range_add]
    simp only [List.flatMap_cons, List.flatMap_nil, List.append_nil]
    congr 1
    apply List.map_congr_left
    intro x hx
    rw [List.mem_range] at hx
    rw [pixelIndex_eq width x k (by omega)]
    omega

theorem row_below (width height x y : Nat) (hx : x < width) (hy : y < height) :
    x + y * width < width * height := by
  have h1 : (y + 1) * width ≤ height * width := Nat.mul_le_mul_right _ hy
  rw [Nat.succ_mul, Nat.mul_comm height width] at h1
  omega

/-- C16: when `width * height < 2 ^ 32`, the index `x + y * width` of line 61,
computed in 32-bit unsigned arithmetic, is a bijection from the pairs with
`x < width`, `y < height` onto the indices below `width * height`; the indices
the converter stores to, in order, are exactly `0, 1, ..., width * height - 1`, so
every store is inside the allocated entries and every entry is stored exactly
once; and the allocation holds `width * height mod 2 ^ 32` entries of 4 bytes. -/
theorem buffer_index_bijection (w : World) (file : List Nat) (hargs : 2 ≤ w.argument_count)
    (himg : w.image = some file) (hbpp : bits_per_pixel (memory w file) w.image_data = 24)
    (hlt : (start w).width * (start w).height < 2 ^ 32) :
    (∀ x y, x < (start w).width → y < (start w).height →
      pixelIndex (start w).width x y = x + y * (start w).width ∧
      pixelIndex (start w).width x y < (start w).width * (start w).height) ∧
    (∀ x y x2 y2, x < (start w).width → y < (start w).height → x2 < (start w).width →
      y2 < (start w).height →
      pixelIndex (start w).width x y = pixelIndex (start w).width x2 y2 → x = x2 ∧ y = y2) ∧
    (∀ i, i < (start w).width * (start w).height →
      ∃ x y, x < (start w).width ∧ y < (start w).height ∧ pixelIndex (start w).width x y = i) ∧
    (start w).trace.filterMap Event.storeIndex
      = List.range ((start w).width * (start w).height) ∧
    (∀ i, ((start w).trace.filterMap Event.storeIndex).count i
      = if i < (start w).width * (start w).height then 1 else 0) ∧
    Event.allocPixels ((start w).width * (start w).height % 2 ^ 32 * 4) ∈ (start w).trace := by
  have hW := start_width w file hargs himg
  have hH := start_height w file hargs himg
  rw [hW, hH] at hlt ⊢
  have hidx : ∀ x y, x < width (memory w file) w.image_data →
      y < height (memory w file) w.image_data →
      pixelIndex (width (memory w file) w.image_data) x y
        = x + y * width (memory w file) w.image_data ∧
      x + y * width (memory w file) w.image_data
        < width (memory w file) w.image_data * height (memory w file) w.image_data := by
    intro x y hx hy
    have := row_below _ _ x y hx hy
    exact ⟨pixelIndex_eq _ x y (by omega), this⟩
  have hlist : (start w).trace.filterMap Event.storeIndex
      = List.range (width (memory w file) w.image_data
          * height (memory w file) w.image_data) := by
    obtain ⟨es, h1, h2⟩ := start_trace_24 w file hargs himg hbpp
    have hes : es.filterMap Event.storeIndex = [] := by
      rw [List.filterMap_eq_nil_iff]
      intro e he
      exact (h2 e he).2.1
    have hcs : (conversionStart w file).trace.filterMap Event.storeIndex = [] := by
      simp [conversionStart, header_trace, Event.storeIndex]
    rw [h1, List.filterMap_append, List.filterMap_append, hes, hcs, storeIndex_convertEvents,
      pixelIndex_rows _ _ (by rw [Nat.mul_comm]; omega), Nat.mul_comm]
    simp
  refine ⟨?_, ?_, ?_, hlist, ?_, start_alloc w file hargs himg hbpp⟩
  · intro x y hx hy
    obtain ⟨h1, h2⟩ := hidx x y hx hy
    exact ⟨h1, by rw [h1]; exact h2⟩
  · intro x y x2 y2 hx hy hx2 hy2 he
    rw [(hidx x y hx hy).1, (hidx x2 y2 hx2 hy2).1] at he
    have hy' : y = y2 := by
      have d1 : (x + y * width (memory w file) w.image_data)
          / width (memory w file) w.image_data = y := by
        rw [Nat.add_mul_div_right _ _ (by omega), Nat.div_eq_of_lt hx, Nat.zero_add]
      have d2 : (x2 + y2 * width (memory w file) w.image_data)
          / width (memory w file) w.image_data = y2 := by
        rw [Nat.add_mul_div_right _ _ (by omega), Nat.div_eq_of_lt hx2, Nat.zero_add]
      rw [← d1, ← d2, he]
    subst hy'
    exact ⟨by omega, rfl⟩
  · intro i hi
    have hpos : 0 < width (memory w file) w.image_data := by
      rcases Nat.eq_zero_or_pos (width (memory w file) w.image_data) with h0 | h0
      · rw [h0, Nat.zero_mul] at hi
        omega
      · exact h0
    have hx : i % width (memory w file) w.image_data < width (memory w file) w.image_data :=
      Nat.mod_lt _ hpos
    have hy : i / width (memory w file) w.image_data < height (memory w file) w.image_data :=
      (Nat.div_lt_iff_lt_mul hpos).mpr (by rw [Nat.mul_comm]; exact hi)
    refine ⟨_, _, hx, hy, ?_⟩
    rw [(hidx _ _ hx hy).1]
    exact Nat.mod_add_div' i _
  · intro i
    rw [hlist]
    by_cases hi : i < width (memory w file) w.image_data * height (memory w file) w.image_data
    · rw [if_pos hi]
      exact List.count_eq_one_of_mem (List.nodup_range _) (List.mem_range.mpr hi)
    · rw [if_neg hi]
      exact List.count_eq_zero_of_not_mem (by rw [List.mem_range]; exact hi)

/-- Witness for `buffer_index_bijection`: the 2x2 red BMP stores to the indices
0, 1, 2, 3 in this order. -/
theorem buffer_index_bijection_witness :
    2 ≤ redWorld.argument_count ∧ redWorld.image = some red2x2 ∧
    bits_per_pixel (memory redWorld red2x2) redWorld.image_data = 24 ∧
    (start redWorld).width * (start redWorld).height < 2 ^ 32 ∧
    (start redWorld).trace.filterMap Event.storeIndex
      = List.range ((start redWorld).width * (start redWorld).height) :=
  ⟨by decide, rfl, by decide, by decide,
    (buffer_index_bijection redWorld red2x2 (by decide) rfl (by decide) (by decide)).2.2.2.1⟩

/-! ## The display loop, event by event -/

theorem start_loop_state (w : World) (h : (start w).ctl = .loop) (info : fb_fix_screeninfo)
    (var : fb_var_screeninfo) (m : Memory) (hfix : w.framebuffer_info = some info)
    (hvar : w.display_info = some var) (hmap : w.mapped = some m) :
    (start w).info = info ∧ (start w).framebuffer = m ∧ (start w).activate = var.activate ∧
    (start w).width ≤ var.xres ∧ (start w).height ≤ var.yres ∧
    Event.mmap info.smem_len 0 ∈ (start w).trace := by
  obtain ⟨file, info2, var2, m2, hargs, himg, _, _, hfix2, hvar2, hw, hh, hmap2, e⟩ :=
    start_loop w h
  rw [hfix] at hfix2
  rw [hvar] at hvar2
  rw [hmap] at hmap2
  injection hfix2 with hfix2
  injection hvar2 with hvar2
  injection hmap2 with hmap2
  subst hfix2 hvar2 hmap2
  have hW := start_width w file hargs himg
  have hH := start_height w file hargs himg
  refine ⟨by rw [e], by rw [e], by rw [e], by rw [hW]; exact hw, by rw [hH]; exact hh, ?_⟩
  rw [e]
  simp [State.emit]

theorem countP_start (w : World) :
    (start w).trace.countP Event.isCommit = 0 ∧ (start w).trace.countP Event.isClear = 0 ∧
    (start w).trace.countP Event.isCopy = 0 := by
  refine ⟨?_, ?_, ?_⟩ <;> rw [List.countP_eq_zero] <;> intro e he <;>
    have := start_trace_kinds w e he <;> simp [this]

theorem countP_copyEvents (info : fb_fix_screeninfo) (pixels : Nat → Nat)
    (width height k : Nat) :
    (copyEvents info pixels width height k).countP Event.isCommit = 0 ∧
    (copyEvents info pixels width height k).countP Event.isClear = 0 ∧
    (copyEvents info pixels width height k).countP Event.isCopy = k * width := by
  refine ⟨?_, ?_, ?_⟩
  · rw [List.countP_eq_zero]
    intro e he
    obtain ⟨y, x, _, _, rfl⟩ := (mem_copyEvents _ _ _ _ _ e).mp he
    simp [Event.isCommit]
  · rw [List.countP_eq_zero]
    intro e he
    obtain ⟨y, x, _, _, rfl⟩ := (mem_copyEvents _ _ _ _ _ e).mp he
    simp [Event.isClear]
  · rw [← copyEvents_length info pixels width height k, List.countP_eq_length]
    intro e he
    obtain ⟨y, x, _, _, rfl⟩ := (mem_copyEvents _ _ _ _ _ e).mp he
    rfl

/-- The counts of commits, clears and copies in the trace of a run that reached
the display loop, at every step after the first. -/
theorem main_counts (w : World) (h : (start w).ctl = .loop) (n : Nat) :
    (main w (n + 1)).trace.countP Event.isCommit = 1 ∧
    (main w (n + 1)).trace.countP Event.isClear = 1 ∧
    (main w (n + 1)).trace.countP Event.isCopy = (start w).height * (start w).width := by
  obtain ⟨s1, s2, s3⟩ := countP_start w
  obtain ⟨c1, c2, c3⟩ := countP_copyEvents (start w).info (start w).pixels (start w).width
    (start w).height (start w).height
  rw [main_trace_loop w h n]
  simp only [List.countP_append, s1, s2, s3, c1, c2, c3]
  cases hp : w.put_ok <;> simp [List.countP_cons, Event.isCommit, Event.isClear, Event.isCopy]

/-- C12: in every run that reaches the display loop the mode commit is issued
exactly once: not before the first pass, and at every step from the first pass
on the trace holds one commit.  It comes after the clear and the
`width * height` pixel copies of the first frame, and the `activate` field
passed is the queried one OR-ed with `FB_ACTIVATE_NOW | FB_ACTIVATE_FORCE`: a
bit of it is set exactly when it was set before or is a bit of one of the two
flags. -/
theorem commit_once (w : World) (var : fb_var_screeninfo) (hvar : w.display_info = some var)
    (hloop : (start w).ctl = .loop) :
    (main w 0).trace.countP Event.isCommit = 0 ∧
    (∀ n, (main w (n + 1)).trace.countP Event.isCommit = 1 ∧
      (main w (n + 1)).trace = (start w).trace
        ++ [.memset (start w).info.smem_start (start w).info.smem_len]
        ++ copyEvents (start w).info (start w).pixels (start w).width (start w).height
            (start w).height
        ++ [.putVarInfo (var.activate ||| (w.FB_ACTIVATE_NOW ||| w.FB_ACTIVATE_FORCE))]
        ++ (if w.put_ok = false then [.print .updateFailed] else [])) ∧
    (copyEvents (start w).info (start w).pixels (start w).width (start w).height
      (start w).height).length = (start w).width * (start w).height ∧
    (∀ i, Nat.testBit (var.activate ||| (w.FB_ACTIVATE_NOW ||| w.FB_ACTIVATE_FORCE)) i
      = (Nat.testBit var.activate i || Nat.testBit w.FB_ACTIVATE_NOW i
          || Nat.testBit w.FB_ACTIVATE_FORCE i)) := by
  obtain ⟨file, info, var2, m, _, _, _, _, hfix, hvar2, _, _, hmap, _⟩ := start_loop w hloop
  rw [hvar] at hvar2
  injection hvar2 with hvar2
  subst hvar2
  have ha := (start_loop_state w hloop info var m hfix hvar hmap).2.2.1
  refine ⟨(countP_start w).1, ?_, ?_, ?_⟩
  · intro n
    refine ⟨(main_counts w hloop n).1, ?_⟩
    rw [main_trace_loop w hloop n, ha]
  · rw [copyEvents_length, Nat.mul_comm]
  · intro i
    simp [Nat.testBit_or, Bool.or_assoc]

/-- Witness for `commit_once`: the red BMP on the 4x4 device, where the flag
constants are 0 and 128 and the commit passes `activate = 128`. -/
theorem commit_once_witness :
    redWorld.display_info = some ⟨4, 4, 0⟩ ∧ (start redWorld).ctl = .loop ∧
    (main redWorld (2 + 1)).trace.countP Event.isCommit = 1 ∧
    Event.putVarInfo 128 ∈ (main redWorld 3).trace :=
  ⟨rfl, by decide, ((commit_once redWorld ⟨4, 4, 0⟩ rfl (by decide)).2.1 2).1, by decide⟩

/-- C13 (code defect): line 101 maps `smem_len` bytes at mapping offset 0, but line
120 clears the `smem_len` bytes at `framebuffer + smem_start`.  On the device that
reports the base offset 8 and 64 bytes of memory, the mapping is `[0, 64)` and
held the byte 7 everywhere: after the first pass the mapped byte at offset 0
still holds 7, and the byte at offset 71, outside the mapping, has been set to
zero; the clear covers `[8, 72)` and the run is undefined from the first pass
on.  On the device that reports the base offset `2 ^ 64 - 8`, which is `-8`, the
clear covers the offsets `-8 .. 55`: the byte at offset 0 is cleared and the
mapped byte at offset 60 still holds 7. -/
theorem clear_is_shifted_by_the_offset :
    Event.mmap 64 0 ∈ (main offsetWorld 1).trace ∧
    Event.memset 8 64 ∈ (main offsetWorld 1).trace ∧
    (main offsetWorld 1).framebuffer 0 = 7 ∧
    (main offsetWorld 1).framebuffer 71 = 0 ∧
    (main offsetWorld 0).framebuffer 71 = 7 ∧
    verdict offsetWorld 0 = .running ∧ verdict offsetWorld 1 = .undefined ∧
    Event.mmap 64 0 ∈ (main wrapWorld 1).trace ∧
    Event.memset (2 ^ 64 - 8) 64 ∈ (main wrapWorld 1).trace ∧
    (main wrapWorld 1).framebuffer 0 = 0 ∧
    (main wrapWorld 1).framebuffer 60 = 7 := by
  decide

/-- C14: when the size check has passed and the device reports `smem_start = 0`,
`line_length ≥ 4 * xres` and `smem_len ≥ yres * line_length`, every clear and
every 4-byte pixel copy of the run, at every step, writes only mapping offsets
below `smem_len`. -/
theorem blit_write_safety (w : World) (info : fb_fix_screeninfo) (var : fb_var_screeninfo)
    (hfix : w.framebuffer_info = some info) (hvar : w.display_info = some var)
    (hloop : (start w).ctl = .loop) (h0 : info.smem_start = 0)
    (hL : 4 * var.xres ≤ info.line_length) (hM : var.yres * info.line_length ≤ info.smem_len) :
    (start w).width ≤ var.xres ∧ (start w).height ≤ var.yres ∧
    ∀ n e, e ∈ (main w n).trace →
      (∀ o l, e = .memset o l → o + l ≤ info.smem_len) ∧
      (∀ o v, e = .memcpy o v → o + 4 ≤ info.smem_len) := by
  obtain ⟨file, info2, var2, m, _, _, _, _, hfix2, _, _, _, hmap, _⟩ := start_loop w hloop
  obtain ⟨hi, _, _, hw, hh, _⟩ := start_loop_state w hloop info var m hfix hvar hmap
  refine ⟨hw, hh, ?_⟩
  intro n e he
  cases n with
  | zero =>
    have hk := start_trace_kinds w e he
    constructor
    · intro o l h
      subst h
      simp [Event.isClear] at hk
    · intro o v h
      subst h
      simp [Event.isCopy] at hk
  | succ n =>
    rw [main_trace_loop w hloop n, hi] at he
    simp only [List.mem_append, List.mem_singleton] at he
    rcases he with (((he | he) | he) | he) | he
    · have hk := start_trace_kinds w e he
      constructor
      · intro o l h
        subst h
        simp [Event.isClear] at hk
      · intro o v h
        subst h
        simp [Event.isCopy] at hk
    · subst he
      constructor
      · intro o l h
        injection h with h1 h2
        omega
      · intro o v h
        cases h
    · obtain ⟨y, x, hy, hx, rfl⟩ := (mem_copyEvents _ _ _ _ _ _).mp he
      constructor
      · intro o l h
        cases h
      · intro o v h
        injection h with h1 h2
        have hy1 : (y + 1) * info.line_length ≤ var.yres * info.line_length :=
          Nat.mul_le_mul_right _ (by omega)
        rw [Nat.succ_mul] at hy1
        have hmod : y * info.line_length % 2 ^ 32 ≤ y * info.line_length := Nat.mod_le _ _
        simp only [framebuffer_pixel_offset] at h1
        omega
    · subst he
      exact ⟨fun _ _ h => Event.noConfusion h, fun _ _ h => Event.noConfusion h⟩
    · split at he
      · rw [List.mem_singleton] at he
        subst he
        exact ⟨fun _ _ h => Event.noConfusion h, fun _ _ h => Event.noConfusion h⟩
      · cases he

/-- Witness for `blit_write_safety`: the red BMP on the 4x4 device with 16 bytes per
row and 64 bytes of memory. -/
theorem blit_write_safety_witness :
    redWorld.framebuffer_info = some ⟨0, 64, 16⟩ ∧ redWorld.display_info = some ⟨4, 4, 0⟩ ∧
    (start redWorld).ctl = .loop ∧ (0 : Nat) = 0 ∧ 4 * 4 ≤ 16 ∧ 4 * 16 ≤ 64 ∧
    Event.memcpy 20 0xFF00FF00 ∈ (main redWorld 1).trace ∧ 20 + 4 ≤ 64 :=
  ⟨rfl, rfl, by decide, rfl, by decide, by decide, by decide,
    ((blit_write_safety redWorld ⟨0, 64, 16⟩ ⟨4, 4, 0⟩ rfl rfl (by decide) rfl (by decide)
      (by decide)).2.2 1 (.memcpy 20 0xFF00FF00) (by decide)).2 20 0xFF00FF00 rfl⟩

/-- C18 (amended): after the first pass and its commit, control stays in the empty
loop of line 147.  At every step from the first pass on, the run has made
exactly one clear and `width * height` copies, its trace and its mapping are
those of the first pass, and it has not returned: there is no second pass. -/
theorem single_pass (w : World) (hloop : (start w).ctl = .loop) (hput : w.put_ok = true)
    (n : Nat) :
    (main w (n + 1)).ctl = .spin ∧
    (main w (n + 1)).trace = (main w 1).trace ∧
    (main w (n + 1)).framebuffer = (main w 1).framebuffer ∧
    (main w (n + 1)).trace.countP Event.isClear = 1 ∧
    (main w (n + 1)).trace.countP Event.isCopy = (start w).width * (start w).height ∧
    (main w (n + 1)).trace.countP Event.isCommit = 1 := by
  obtain ⟨c1, c2, c3⟩ := main_counts w hloop n
  have e : main w (n + 1) = main w 1 := by
    rw [main_of_loop w hloop n, main_of_loop w hloop 0]
  refine ⟨?_, by rw [e], by rw [e], c2, by rw [c3, Nat.mul_comm], c1⟩
  rw [main_of_loop w hloop n]
  exact (step_put_ok w (start w) hloop (start_activated w) hput).1

/-- Witness for `single_pass`: the red BMP after 4 steps. -/
theorem single_pass_witness :
    (start redWorld).ctl = .loop ∧ redWorld.put_ok = true ∧
    (main redWorld (3 + 1)).trace.countP Event.isClear = 1 :=
  ⟨by decide, rfl, (single_pass redWorld (by decide) rfl 3).2.2.2.1⟩

/-- C18 fails as stated: the red BMP on the 4x4 device, with a successful commit.
After 2 steps and after 5 steps the trace is the one of the first pass, with one
clear and 4 copies: no second clear-and-copy has been made. -/
theorem no_second_pass :
    (start redWorld).ctl = .loop ∧ redWorld.put_ok = true ∧
    (main redWorld 1).trace.countP Event.isClear = 1 ∧
    (main redWorld 2).trace.countP Event.isClear = 1 ∧
    (main redWorld 5).trace.countP Event.isClear = 1 ∧
    (main redWorld 5).trace.countP Event.isCopy = 4 ∧
    (main redWorld 2).trace = (main redWorld 1).trace ∧
    (main redWorld 2).ctl = .spin := by
  decide

/-! ## Reads of the converter -/

theorem start_load_events (w : World) (file : List Nat) (hargs : 2 ≤ w.argument_count)
    (himg : w.image = some file) (hbpp : bits_per_pixel (memory w file) w.image_data = 24)
    (a : Nat) (h : Event.load8 a ∈ (start w).trace) :
    ∃ y x j, y < height (memory w file) w.image_data ∧ x < width (memory w file) w.image_data ∧
      j < 3 ∧ a = (convert (memory w file) (width (memory w file) w.image_data)
          (conversionStart w file) y).pixel + 3 * x + j := by
  obtain ⟨es, h1, h2⟩ := start_trace_24 w file hargs himg hbpp
  rw [h1, List.mem_append, List.mem_append] at h
  rcases h with (h | h) | h
  · simp [conversionStart, header_trace] at h
  · obtain ⟨y, x, hy, hx, hm⟩ := (mem_convertEvents _ _ _ _ _).mp h
    simp only [pixelEvents, List.mem_cons, List.mem_singleton, List.not_mem_nil,
      or_false] at hm
    rcases hm with hm | hm | hm | hm
    · injection hm with h1
      exact ⟨y, x, 1, hy, hx, by omega, h1⟩
    · injection hm with h1
      exact ⟨y, x, 2, hy, hx, by omega, h1⟩
    · injection hm with h1
      exact ⟨y, x, 0, hy, hx, by omega, h1⟩
    · cases hm
  · have := (h2 _ h).1
    simp [Event.isPixelAccess] at this

/-- Where the row-start defect does not show, the converter reads inside the
file: if the pixel data start at a 4-byte aligned address, at a file offset
below `2 ^ 31`, and the file holds `height` padded rows from there, then every
byte the conversion loads lies in the file buffer. -/
theorem reads_inside_file_of_aligned (w : World) (file : List Nat)
    (hargs : 2 ≤ w.argument_count) (himg : w.image = some file) (hlen : 32 ≤ file.length)
    (hbpp : fileU32 file 28 = 24) (h31 : fileU32 file 10 < 2 ^ 31)
    (h4 : (w.image_data + fileU32 file 10) % 4 = 0)
    (h64 : w.image_data + file.length + 3 < 2 ^ 64)
    (hfile : fileU32 file 10 + fileU32 file 22 * paddedRowBytes (fileU32 file 18) ≤ file.length)
    (a : Nat) (h : Event.load8 a ∈ (start w).trace) :
    w.image_data ≤ a ∧ a < w.image_data + file.length := by
  have hW : width (memory w file) w.image_data = fileU32 file 18 := by
    rw [width, load32_file w file 18 (by omega)]
  have hH : height (memory w file) w.image_data = fileU32 file 22 := by
    rw [height, load32_file w file 22 (by omega)]
  have h24 : bits_per_pixel (memory w file) w.image_data = 24 := by
    rw [bits_per_pixel, load32_file w file 28 (by omega), hbpp]
  have hP : pixel (memory w file) w.image_data = w.image_data + fileU32 file 10 := by
    rw [pixel, load32_file w file 10 (by omega), signExtend, if_pos h31,
      Nat.mod_eq_of_lt (by omega)]
  obtain ⟨y, x, j, hy, hx, hj, ha⟩ := start_load_events w file hargs himg h24 a h
  rw [hW] at hx ha
  rw [hH] at hy
  have hy1 : (y + 1) * paddedRowBytes (fileU32 file 18)
      ≤ fileU32 file 22 * paddedRowBytes (fileU32 file 18) := Nat.mul_le_mul_right _ hy
  rw [Nat.succ_mul] at hy1
  have hS : paddedRowBytes (fileU32 file 18) = (fileU32 file 18 * 3 + 3) / 4 * 4 := rfl
  have hrow := convert_pixel_aligned (memory w file) (fileU32 file 18) (conversionStart w file) y
    (by show pixel (memory w file) w.image_data % 4 = 0; rw [hP]; exact h4)
    (by show pixel (memory w file) w.image_data + _ + 3 < 2 ^ 64; rw [hP]; omega)
  have hrow2 : (convert (memory w file) (fileU32 file 18) (conversionStart w file) y).pixel
      = w.image_data + fileU32 file 10 + y * paddedRowBytes (fileU32 file 18) := by
    rw [hrow]
    show pixel (memory w file) w.image_data + _ = _
    rw [hP]
  rw [hrow2] at ha
  omega

/-- C15 (code defect): the 62-byte 1x2 BMP with pixel data at the standard offset 54,
loaded at the 4-byte aligned address 4096.  Its length is exactly
`54 + 2 * ceil(3 * 1 / 4) * 4 = 62`, yet the conversion loads the byte at file
index 62: the second row is read from file byte 60 instead of 58. -/
theorem read_past_the_file :
    narrowFile.length = 62 ∧ fileU32 narrowFile 10 = 54 ∧ fileU32 narrowFile 18 = 1 ∧
    fileU32 narrowFile 22 = 2 ∧ fileU32 narrowFile 28 = 24 ∧
    54 + 2 * paddedRowBytes 1 ≤ narrowFile.length ∧ narrowWorld.image_data % 4 = 0 ∧
    Event.load8 (narrowWorld.image_data + 62) ∈ (start narrowWorld).trace ∧
    ¬ (62 < narrowFile.length) ∧
    (convert (memory narrowWorld narrowFile) 1 (conversionStart narrowWorld narrowFile) 1).pixel
      = narrowWorld.image_data + 60 := by
  decide

/-! ## The format check and the neighbouring header fields -/

theorem fileU32_split (file : List Nat) (i : Nat) :
    fileU32 file i = fileU16 file i + 2 ^ 16 * fileU16 file (i + 2) ∧ fileU16 file i < 2 ^ 16 ∧
    fileU32 file (i + 2) % 2 ^ 16 = fileU16 file (i + 2) := by
  simp only [fileU32, fileU16, Nat.add_assoc]
  norm_num
  have h0 := Nat.mod_lt (file.getD i 0) (by norm_num : 256 > 0)
  have h1 := Nat.mod_lt (file.getD (i + 1) 0) (by norm_num : 256 > 0)
  have h2 := Nat.mod_lt (file.getD (i + 2) 0) (by norm_num : 256 > 0)
  have h3 := Nat.mod_lt (file.getD (i + 3) 0) (by norm_num : 256 > 0)
  omega

/-- C17 (amended): acceptance is independent of the signature, but not of the
compression method.  The decoder tests the 32-bit word at bytes 28..31, which is
the 16-bit depth at bytes 28..29 together with the low 16 bits of the
compression method at bytes 30..33.  For a file of at least 34 bytes the format
error is reported exactly when the depth is not 24 or those low 16 bits are not
zero; two files that agree on bytes 28..31 are both accepted or both rejected,
whatever their signature bytes and the upper 16 bits of the compression method
are. -/
theorem format_check_reads_32_bits (w : World) (file : List Nat)
    (hargs : 2 ≤ w.argument_count) (himg : w.image = some file) (hlen : 34 ≤ file.length)
    (n : Nat) :
    (Diagnostic.mustBe24 ∈ diagnostics (main w n).trace ↔
      ¬ (fileU16 file 28 = 24 ∧ fileU32 file 30 % 2 ^ 16 = 0)) ∧
    (∀ (w2 : World) (file2 : List Nat), 2 ≤ w2.argument_count → w2.image = some file2 →
      34 ≤ file2.length → fileU16 file2 28 = fileU16 file 28 →
      fileU32 file2 30 % 2 ^ 16 = fileU32 file 30 % 2 ^ 16 →
      (Diagnostic.mustBe24 ∈ diagnostics (main w2 n).trace ↔
        Diagnostic.mustBe24 ∈ diagnostics (main w n).trace)) := by
  have key : ∀ (w : World) (file : List Nat), 2 ≤ w.argument_count → w.image = some file →
      34 ≤ file.length →
      (Diagnostic.mustBe24 ∈ diagnostics (main w n).trace ↔
        ¬ (fileU16 file 28 = 24 ∧ fileU32 file 30 % 2 ^ 16 = 0)) := by
    intro w file hargs himg hlen
    have hb : bits_per_pixel (memory w file) w.image_data = fileU32 file 28 :=
      load32_file w file 28 (by omega)
    obtain ⟨s1, s2, s3⟩ := fileU32_split file 28
    constructor
    · intro hmem hacc
      apply no_format_error_of_24 w file hargs himg _ n hmem
      rw [hb, s1]
      rw [s3] at hacc
      omega
    · intro hacc
      have hne : bits_per_pixel (memory w file) w.image_data ≠ 24 := by
        rw [hb, s1]
        intro h24
        apply hacc
        rw [s3]
        omega
      rw [format_error_run w file hargs himg hne n, diagnostics_fail, diagnostics_header]
      simp
  refine ⟨key w file hargs himg hlen, ?_⟩
  intro w2 file2 hargs2 himg2 hlen2 h16 hc
  rw [key w file hargs himg hlen, key w2 file2 hargs2 himg2 hlen2, h16, hc]

/-- Witness for `format_check_reads_32_bits`: the red BMP is accepted. -/
theorem format_check_reads_32_bits_witness :
    2 ≤ redWorld.argument_count ∧ redWorld.image = some red2x2 ∧ 34 ≤ red2x2.length ∧
    (Diagnostic.mustBe24 ∈ diagnostics (main redWorld 1).trace ↔
      ¬ (fileU16 red2x2 28 = 24 ∧ fileU32 red2x2 30 % 2 ^ 16 = 0)) :=
  ⟨by decide, rfl, by decide,
    (format_check_reads_32_bits redWorld red2x2 (by decide) rfl (by decide) 1).1⟩

/-- C17 fails as stated: a header whose 16-bit depth at bytes 28..29 is 24 and
whose compression method at bytes 30..33 is 1 (`BI_RLE8`).  The word at bytes
28..31 is `65560`, and the run returns 1 with the format diagnostic. -/
theorem compressed_file_is_rejected :
    fileU16 rleFile 28 = 24 ∧ fileU32 rleFile 30 = 1 ∧ fileU32 rleFile 28 = 65560 ∧
    (main rleWorld 1).ctl = .returned 1 ∧
    diagnostics (main rleWorld 1).trace = [.mustBe24] := by
  decide

/-! ## Runs that leave their objects -/

theorem start_first_store (w : World) (file : List Nat) (hargs : 2 ≤ w.argument_count)
    (himg : w.image = some file) (hbpp : bits_per_pixel (memory w file) w.image_data = 24)
    (hw : 0 < width (memory w file) w.image_data)
    (hh : 0 < height (memory w file) w.image_data) :
    Event.storePixel 0 (packAt (memory w file) (pixel (memory w file) w.image_data))
      ∈ (start w).trace := by
  obtain ⟨es, h, _⟩ := start_trace_24 w file hargs himg hbpp
  rw [h]
  refine List.mem_append_left _ (List.mem_append_right _
    ((mem_convertEvents _ _ _ _ _).mpr ⟨0, 0, hh, hw, ?_⟩))
  simp [pixelEvents, convert, forLoop, conversionStart]

theorem verdict_undefined_of_event (w : World) (e : Event) (he : e ∈ (start w).trace)
    (hv : e.valid w (w.image.getD []).length ((start w).width * (start w).height % 2 ^ 32)
      (start w).info.smem_len = false) (n : Nat) : verdict w n = .undefined := by
  have h0 : (main w 0).defined w = false := by
    unfold State.defined
    rw [main_zero, List.all_eq_false]
    exact ⟨e, he, by rw [hv]; simp⟩
  have hn := main_defined_false w 0 h0 n (Nat.zero_le n)
  unfold verdict
  rw [hn]
  simp

/-- C9 fails as stated: the header announcing 65536 x 65536 pixels fails the size
check, so the claim lets the program return 1 with the size diagnostic; but
line 56 computes `width * height` in 32 bits and allocates 0 bytes, and line 61
stores entry 0 before any device call, so the run is undefined at every step.
And when the `malloc` of line 56 returns no buffer for the red BMP, no check of
the list fails, yet the first store of line 61 has no object to go to. -/
theorem undefined_run_has_no_exit_status :
    firstFailure hugeWorld = some .tooLarge ∧
    (start hugeWorld).width * (start hugeWorld).height % 2 ^ 32 = 0 ∧
    Event.allocPixels 0 ∈ (start hugeWorld).trace ∧
    (∃ v, Event.storePixel 0 v ∈ (start hugeWorld).trace) ∧
    (∀ n, verdict hugeWorld n = .undefined) ∧
    firstFailure allocFailsWorld = none ∧
    Event.storePixel 0 0xFF00FF00 ∈ (start allocFailsWorld).trace ∧
    (∀ n, verdict allocFailsWorld n = .undefined) := by
  have hW : (start hugeWorld).width = 65536 := by
    rw [start_width hugeWorld hugeFile (by decide) rfl]; decide
  have hH : (start hugeWorld).height = 65536 := by
    rw [start_height hugeWorld hugeFile (by decide) rfl]; decide
  have hs := start_first_store hugeWorld hugeFile (by decide) rfl (by decide) (by decide)
    (by decide)
  have ha := start_alloc hugeWorld hugeFile (by decide) rfl (by decide)
  have h0 : width (memory hugeWorld hugeFile) hugeWorld.image_data
      * height (memory hugeWorld hugeFile) hugeWorld.image_data % 2 ^ 32 * 4 = 0 := by decide
  rw [h0] at ha
  refine ⟨by decide, by rw [hW, hH]; decide, ha, ⟨_, hs⟩, ?_, by decide, by decide, ?_⟩
  · refine verdict_undefined_of_event hugeWorld _ hs ?_
    rw [hW, hH]
    simp [Event.valid]
  · exact verdict_undefined_of_event allocFailsWorld (.storePixel 0 0xFF00FF00) (by decide)
      (by decide)

end Display

namespace Threads

/-! ## `fibonacci` and the worker loop -/

theorem fibonacci_small (n : Int) (h : n < 2) : fibonacci n = some n := by
  rw [fibonacci]
  simp [h]

theorem fibonacci_unfold (n : Int) (h : ¬ n < 2) (a b : Int)
    (ha : fibonacci (n - 1) = some a) (hb : fibonacci (n - 2) = some b) :
    fibonacci n = addInt a b := by
  rw [fibonacci]
  simp [h, ha, hb]

theorem F_le_succ (n : Nat) : F n ≤ F (n + 1) := by
  cases n with
  | zero => decide
  | succ n =>
    show F (n + 1) ≤ F (n + 1) + F n
    omega

theorem F_mono {n m : Nat} (h : n ≤ m) : F n ≤ F m :=
  monotone_nat_of_le_succ F_le_succ h

theorem F_46 : F 46 = 1836311903 := by decide

theorem F_fits (n : Nat) (h : n ≤ 46) : F n < 2 ^ 31 := by
  have := F_mono h
  rw [F_46] at this
  omega

theorem fibonacci_pair (n : Nat) :
    (n ≤ 46 → fibonacci (n : Int) = some (F n : Int)) ∧
    (n + 1 ≤ 46 → fibonacci ((n + 1 : Nat) : Int) = some (F (n + 1) : Int)) := by
  induction n with
  | zero =>
    exact ⟨fun _ => fibonacci_small 0 (by decide), fun _ => fibonacci_small 1 (by decide)⟩
  | succ n ih =>
    refine ⟨ih.2, ?_⟩
    intro h
    have h1 := ih.2 (by omega)
    have h0 := ih.1 (by omega)
    have e1 : ((n + 1 + 1 : Nat) : Int) - 1 = ((n + 1 : Nat) : Int) := by push_cast; ring
    have e0 : ((n + 1 + 1 : Nat) : Int) - 2 = (n : Int) := by push_cast; ring
    rw [fibonacci_unfold _ (by push_cast; omega) (F (n + 1)) (F n) (by rw [e1]; exact h1)
      (by rw [e0]; exact h0)]
    have hfit := F_fits (n + 1 + 1) h
    have hF : F (n + 1 + 1) = F (n + 1) + F n := rfl
    unfold addInt
    rw [if_pos (by constructor <;> omega)]
    rw [hF]
    push_cast
    rfl

theorem fibonacci_eq_F (n : Nat) (h : n ≤ 46) : fibonacci (n : Int) = some (F n : Int) :=
  (fibonacci_pair n).1 h

theorem compute_fibonaccis_from (grow : Nat → Nat) (c : Nat) (hc : c ≤ 47) (k : Nat) :
    ∀ (i fuel : Nat) (sizes : List Nat), i + k = c → k + 1 ≤ fuel →
      compute_fibonaccis grow fuel i
          { data := (List.range i).map fun j => (F j : Int), capacity := c, reallocations := 0 }
          sizes
        = .value ({ data := (List.range c).map fun j => (F j : Int), capacity := c,
                    reallocations := 0 }, sizes ++ List.range' (i + 1) k) := by
  induction k with
  | zero =>
    intro i fuel sizes hi hf
    obtain ⟨f, rfl⟩ : ∃ f, fuel = f + 1 := ⟨fuel - 1, by omega⟩
    have hic : i = c := by omega
    subst hic
    simp [compute_fibonaccis]
  | succ k ih =>
    intro i fuel sizes hi hf
    obtain ⟨f, rfl⟩ : ∃ f, fuel = f + 1 := ⟨fuel - 1, by omega⟩
    have hlt : i < c := by omega
    have hpush : push_back grow
        { data := (List.range i).map fun j => (F j : Int), capacity := c, reallocations := 0 }
        (F i : Int)
          = { data := (List.range (i + 1)).map fun j => (F j : Int), capacity := c,
              reallocations := 0 } := by
      simp [push_back, hlt, List.range_succ]
    simp only [compute_fibonaccis, if_pos hlt, fibonacci_eq_F i (by omega), hpush]
    rw [ih (i + 1) f _ (by omega) (by omega)]
    simp [List.range'_succ]

/-- C19: `fibonacci(n)` returns `n` for `n < 2` and `F(n)` for `2 ≤ n ≤ 46`, every
`int` addition on the way fitting 32 bits; and on an empty vector with reserved
capacity `c ≤ 47`, `compute_fibonaccis` ends (given `c + 1` evaluations of its
loop condition) with the vector holding exactly `F(0), ..., F(c-1)`, the capacity
still `c` and no reallocation; the sizes after the pushes are `1, ..., c`, none
above `c`. -/
theorem worker_fills_reserved_buffer :
    (∀ n : Int, n < 2 → fibonacci n = some n) ∧
    (∀ n : Nat, 2 ≤ n → n ≤ 46 →
      fibonacci (n : Int) = some (F n : Int) ∧ (F n : Int) < 2 ^ 31) ∧
    (∀ (grow : Nat → Nat) (c fuel : Nat), c ≤ 47 → c + 1 ≤ fuel →
      compute_fibonaccis grow fuel 0 (reserved c) []
        = .value ({ data := (List.range c).map fun j => (F j : Int), capacity := c,
                    reallocations := 0 }, List.range' 1 c) ∧
      ∀ s ∈ List.range' 1 c, s ≤ c) := by
  refine ⟨fibonacci_small, ?_, ?_⟩
  · intro n _ h46
    refine ⟨fibonacci_eq_F n h46, ?_⟩
    have := F_fits n h46
    exact_mod_cast this
  · intro grow c fuel hc hf
    constructor
    · have := compute_fibonaccis_from grow c hc c 0 fuel [] (by omega) hf
      simpa [reserved] using this
    · intro s hs
      rw [List.mem_range'_1] at hs
      omega

/-- Witness for `worker_fills_reserved_buffer`: the program's `reserve(30)`, and
`fibonacci(46)`. -/
theorem worker_fills_reserved_buffer_witness :
    30 ≤ 47 ∧ 30 + 1 ≤ 31 ∧
    compute_fibonaccis (fun c => 2 * c) 31 0 (reserved 30) []
        = .value ({ data := (List.range 30).map fun j => (F j : Int), capacity := 30,
                    reallocations := 0 }, List.range' 1 30) ∧
    fibonacci ((46 : Nat) : Int) = some (F 46 : Int) :=
  ⟨by decide, by decide,
    (worker_fills_reserved_buffer.2.2 (fun c => 2 * c) 30 31 (by decide) (by decide)).1,
    (worker_fills_reserved_buffer.2.1 46 (by decide) (by decide)).1⟩

end Threads
